import Mathlib

/-!
Verification of the stb-tester frame comparison engine.

This file gives a shallow embedding of the C sources:
  src/_stbt/sqdiff.c          (PixelMetric and DiffMap)
  src/gst/gstmotiondetect.c   (MotionState)
  src/gst/gsttemplatematch.c  (ConfirmDecision)
and proves the frozen claims about them.

Machine integers are modelled as Nat (unsigned) and Int (signed), with
explicit reductions modulo 2^16, 2^32 and 2^64 exactly where the C code
performs an implicit conversion or where an accumulator of that width is
stored.  Byte buffers are modelled as functions from byte offsets to
values, with the hypothesis that every value fits in a byte carried by
the theorems.
-/

namespace Stbt

/-! ## Machine integer helpers -/

def UINT16_MOD : Nat := 65536
def UINT32_MOD : Nat := 4294967296
def UINT64_MOD : Nat := 18446744073709551616

/-- Conversion of a C `int` value to `int16_t` (wrap into [-32768, 32768)). -/
def int16_of (x : Int) : Int := (x + 32768) % 65536 - 32768

/-- Conversion of a C `int` value to `uint16_t` (reduce modulo 2^16). -/
def uint16_of (x : Int) : Nat := (x % 65536).toNat

/-- Conversion of a C `int` value to `uint32_t` (reduce modulo 2^32). -/
def uint32_of (x : Int) : Nat := (x % 4294967296).toNat

/-! ## src/_stbt/sqdiff.c -/

/-- The `PixelDepth` enum of sqdiff.c. -/
inductive PixelDepth
  | PIXEL_DEPTH_U8
  | PIXEL_DEPTH_BGR
  | PIXEL_DEPTH_BGRx
  | PIXEL_DEPTH_BGRA
deriving DecidableEq

/-- The `SqdiffResult` struct of sqdiff.c: a `uint64_t` total and a
`uint32_t` count. -/
structure SqdiffResult where
  total : Nat
  count : Nat
deriving DecidableEq

/-- `sqdiff_U8` from sqdiff.c: one row of squared byte differences.
`int16_t diff = a[n] - b[n]; uint16_t sqdiff = diff * diff;` accumulated
into a `uint32_t`. -/
def sqdiff_U8 (a b : Nat → Nat) (len : Nat) : Nat :=
  (List.range len).foldl
    (fun acc n =>
      (acc + uint16_of (int16_of ((a n : Int) - b n) *
                        int16_of ((a n : Int) - b n))) % UINT32_MOD)
    0

/-- `sqdiff_BGRx` from sqdiff.c: one row, template advances 4 bytes per
pixel, frame advances 3; the three channel differences are squared in
`int` arithmetic and their sum is stored into a `uint32_t`. -/
def sqdiff_BGRx (t f : Nat → Nat) (len : Nat) : Nat :=
  (List.range len).foldl
    (fun acc n =>
      (acc + uint32_of
        (int16_of ((t (4 * n) : Int) - f (3 * n)) *
           int16_of ((t (4 * n) : Int) - f (3 * n)) +
         int16_of ((t (4 * n + 1) : Int) - f (3 * n + 1)) *
           int16_of ((t (4 * n + 1) : Int) - f (3 * n + 1)) +
         int16_of ((t (4 * n + 2) : Int) - f (3 * n + 2)) *
           int16_of ((t (4 * n + 2) : Int) - f (3 * n + 2)))) % UINT32_MOD)
    0

/-- The `uint32_t sqdiff = diff_b2 + diff_g2 + diff_r2` value of pixel n
in `sqdiff_BGRA`: each squared channel difference is stored into a
`uint16_t`, their sum into a `uint32_t`. -/
def sqdiff_BGRA_px (t f : Nat → Nat) (n : Nat) : Nat :=
  (uint16_of (int16_of ((t (4 * n) : Int) - f (3 * n)) *
              int16_of ((t (4 * n) : Int) - f (3 * n))) +
   uint16_of (int16_of ((t (4 * n + 1) : Int) - f (3 * n + 1)) *
              int16_of ((t (4 * n + 1) : Int) - f (3 * n + 1))) +
   uint16_of (int16_of ((t (4 * n + 2) : Int) - f (3 * n + 2)) *
              int16_of ((t (4 * n + 2) : Int) - f (3 * n + 2)))) % UINT32_MOD

/-- The `uint8_t present = (t[3] == 255) ? 1 : 0` value of pixel n in
`sqdiff_BGRA`. -/
def sqdiff_BGRA_present (t : Nat → Nat) (n : Nat) : Nat :=
  if t (4 * n + 3) = 255 then 1 else 0

/-- `sqdiff_BGRA` from sqdiff.c: one row; a pixel contributes iff its
fourth byte equals 255; `this_total` is a `uint32_t`, `this_count` a
`uint16_t`.  Returns (this_total, this_count). -/
def sqdiff_BGRA (t f : Nat → Nat) (len : Nat) : Nat × Nat :=
  (List.range len).foldl
    (fun acc n =>
      ((acc.1 + sqdiff_BGRA_px t f n * sqdiff_BGRA_present t n % UINT32_MOD) % UINT32_MOD,
       (acc.2 + sqdiff_BGRA_present t n) % UINT16_MOD))
    (0, 0)

/-- `sqdiff` from sqdiff.c.  Buffers are byte-offset functions; row y of
the template starts at byte `y * t_stride`, row y of the frame at
`y * f_stride`.  The per-row totals are accumulated into a `uint64_t`.
In the BGR branch the C code passes `width_px * 3` to a `uint16_t`
parameter, hence the reduction modulo 2^16 there.  The `count` field is
a `uint32_t`. -/
def sqdiff (t : Nat → Nat) (t_stride : Nat) (f : Nat → Nat) (f_stride : Nat)
    (width height : Nat) (color_depth : PixelDepth) : SqdiffResult :=
  match color_depth with
  | .PIXEL_DEPTH_U8 =>
    { count := width * height % UINT32_MOD
      total := (List.range height).foldl
        (fun acc y =>
          (acc + sqdiff_U8 (fun i => t (y * t_stride + i))
                           (fun i => f (y * f_stride + i)) width) % UINT64_MOD)
        0 }
  | .PIXEL_DEPTH_BGR =>
    { count := width * height * 3 % UINT32_MOD
      total := (List.range height).foldl
        (fun acc y =>
          (acc + sqdiff_U8 (fun i => t (y * t_stride + i))
                           (fun i => f (y * f_stride + i))
                           (width * 3 % UINT16_MOD)) % UINT64_MOD)
        0 }
  | .PIXEL_DEPTH_BGRx =>
    { count := width * height * 3 % UINT32_MOD
      total := (List.range height).foldl
        (fun acc y =>
          (acc + sqdiff_BGRx (fun i => t (y * t_stride + i))
                             (fun i => f (y * f_stride + i)) width) % UINT64_MOD)
        0 }
  | .PIXEL_DEPTH_BGRA =>
    let z : Nat × Nat := (List.range height).foldl
      (fun acc y =>
        ((acc.1 + (sqdiff_BGRA (fun i => t (y * t_stride + i))
                               (fun i => f (y * f_stride + i)) width).1) % UINT64_MOD,
         (acc.2 + (sqdiff_BGRA (fun i => t (y * t_stride + i))
                               (fun i => f (y * f_stride + i)) width).2) % UINT32_MOD))
      (0, 0)
    { total := z.1, count := z.2 * 3 % UINT32_MOD }

/-- The `uint32_t sqdiff` value of pixel n in `threshold_diff_BGR_line`:
three signed 16-bit channel differences squared and summed in `int`
arithmetic, stored into a `uint32_t`. -/
def threshold_diff_px_sq (a b : Nat → Nat) (n : Nat) : Nat :=
  uint32_of
    (int16_of ((a (3 * n) : Int) - b (3 * n)) *
       int16_of ((a (3 * n) : Int) - b (3 * n)) +
     int16_of ((a (3 * n + 1) : Int) - b (3 * n + 1)) *
       int16_of ((a (3 * n + 1) : Int) - b (3 * n + 1)) +
     int16_of ((a (3 * n + 2) : Int) - b (3 * n + 2)) *
       int16_of ((a (3 * n + 2) : Int) - b (3 * n + 2)))

/-- `threshold_diff_BGR_line` from sqdiff.c: one output byte per pixel,
1 iff the packed-BGR squared difference is at least `threshold_sq`. -/
def threshold_diff_BGR_line (a b : Nat → Nat) (len_px : Nat)
    (threshold_sq : Nat) : List Nat :=
  (List.range len_px).map
    (fun n => if threshold_sq ≤ threshold_diff_px_sq a b n then 1 else 0)

/-- `threshold_diff_bgr` from sqdiff.c: the output pointer advances by
`width_px` after each row, so the output image is the concatenation of
the per-row outputs. -/
def threshold_diff_bgr (a : Nat → Nat) (line_stride_a : Nat)
    (b : Nat → Nat) (line_stride_b : Nat)
    (threshold_sq width height : Nat) : List Nat :=
  ((List.range height).map
    (fun y => threshold_diff_BGR_line (fun i => a (y * line_stride_a + i))
                                      (fun i => b (y * line_stride_b + i))
                                      width threshold_sq)).flatten

/-! ## Specification-side mathematical sums -/

/-- The exact squared difference of two byte values. -/
def sqByteDiff (a b : Nat) : Nat := (((a : Int) - b).natAbs) ^ 2

/-- The exact three-channel squared difference of pixel `n` for a
template advancing `tstep` bytes per pixel against a packed BGR frame. -/
def bgrSqDiff (t f : Nat → Nat) (tstep n : Nat) : Nat :=
  sqByteDiff (t (tstep * n)) (f (3 * n)) +
  sqByteDiff (t (tstep * n + 1)) (f (3 * n + 1)) +
  sqByteDiff (t (tstep * n + 2)) (f (3 * n + 2))

/-- A buffer backed by a concrete list of bytes (for concrete scenarios). -/
def bufOf (l : List Nat) : Nat → Nat := fun i => l.getD i 0

/-- All values of a byte buffer fit in a byte. -/
def IsByteBuf (a : Nat → Nat) : Prop := ∀ i, a i ≤ 255

/-! ## Generic lemmas about modular accumulation loops -/

theorem foldl_add_mod (m : Nat) (g : Nat → Nat) :
    ∀ (l : List Nat) (a : Nat),
      l.foldl (fun acc n => (acc + g n) % m) (a % m) = (a + (l.map g).sum) % m := by
  intro l
  induction l with
  | nil => intro a; simp
  | cons x xs ih =>
    intro a
    simp only [List.foldl_cons, List.map_cons, List.sum_cons]
    rw [Nat.mod_add_mod, ih (a + g x), Nat.add_assoc]

theorem foldl_add_mod_zero (m : Nat) (g : Nat → Nat) (l : List Nat) :
    l.foldl (fun acc n => (acc + g n) % m) 0 = (l.map g).sum % m := by
  have h := foldl_add_mod m g l 0
  rwa [Nat.zero_mod, Nat.zero_add] at h

theorem foldl_add_mod_pair (m1 m2 : Nat) (g1 g2 : Nat → Nat) :
    ∀ (l : List Nat) (a : Nat × Nat),
      l.foldl (fun acc n => ((acc.1 + g1 n) % m1, (acc.2 + g2 n) % m2))
          (a.1 % m1, a.2 % m2) =
        ((a.1 + (l.map g1).sum) % m1, (a.2 + (l.map g2).sum) % m2) := by
  intro l
  induction l with
  | nil => intro a; simp
  | cons x xs ih =>
    intro a
    simp only [List.foldl_cons, List.map_cons, List.sum_cons]
    have step : ((a.1 % m1 + g1 x) % m1, (a.2 % m2 + g2 x) % m2) =
        ((a.1 + g1 x) % m1, (a.2 + g2 x) % m2) := by
      rw [Nat.mod_add_mod, Nat.mod_add_mod]
    rw [step, ih (a.1 + g1 x, a.2 + g2 x), Nat.add_assoc, Nat.add_assoc]

theorem foldl_add_mod_pair_zero (m1 m2 : Nat) (g1 g2 : Nat → Nat) (l : List Nat) :
    l.foldl (fun acc n => ((acc.1 + g1 n) % m1, (acc.2 + g2 n) % m2)) (0, 0) =
      ((l.map g1).sum % m1, (l.map g2).sum % m2) := by
  have h := foldl_add_mod_pair m1 m2 g1 g2 l (0, 0)
  simp only [Nat.zero_mod, Nat.zero_add] at h
  exact h

theorem range_map_sum (g : Nat → Nat) (n : Nat) :
    ((List.range n).map g).sum = ∑ i in Finset.range n, g i := by
  induction n with
  | zero => simp
  | succ k ih => rw [List.range_succ, Finset.sum_range_succ]; simp [ih]

theorem sum_range_le (g : Nat → Nat) (c n : Nat) (h : ∀ i, i < n → g i ≤ c) :
    (∑ i in Finset.range n, g i) ≤ n * c := by
  calc (∑ i in Finset.range n, g i) ≤ ∑ _i in Finset.range n, c :=
        Finset.sum_le_sum (fun i hi => h i (Finset.mem_range.mp hi))
    _ = n * c := by simp [Finset.sum_const, Finset.card_range, Nat.smul_one_eq_cast]

/-! ## Machine arithmetic lemmas -/

theorem int16_of_eq_self (x : Int) (h1 : -32768 ≤ x) (h2 : x < 32768) :
    int16_of x = x := by
  unfold int16_of
  rw [Int.emod_eq_of_lt (by omega) (by omega)]
  omega

theorem uint16_of_sq (d : Int) (h : d.natAbs ≤ 255) :
    uint16_of (d * d) = d.natAbs * d.natAbs := by
  have key : d * d = ((d.natAbs * d.natAbs : Nat) : Int) := by
    rw [Int.natAbs_mul_self]
  have bound : d * d < 65536 := by
    rw [key]
    exact_mod_cast Nat.lt_of_le_of_lt
      (Nat.mul_le_mul h h) (by norm_num)
  unfold uint16_of
  rw [Int.emod_eq_of_lt (mul_self_nonneg d) bound, key, Int.toNat_natCast]

theorem byte_diff_natAbs_le (a b : Nat) (ha : a ≤ 255) (hb : b ≤ 255) :
    ((a : Int) - b).natAbs ≤ 255 := by omega

theorem byte_diff_int16 (a b : Nat) (ha : a ≤ 255) (hb : b ≤ 255) :
    int16_of ((a : Int) - b) = (a : Int) - b :=
  int16_of_eq_self _ (by omega) (by omega)

theorem term_U8_eq (a b : Nat) (ha : a ≤ 255) (hb : b ≤ 255) :
    uint16_of (int16_of ((a : Int) - b) * int16_of ((a : Int) - b)) =
      sqByteDiff a b := by
  rw [byte_diff_int16 a b ha hb, uint16_of_sq _ (byte_diff_natAbs_le a b ha hb)]
  unfold sqByteDiff
  rw [pow_two]

theorem sqByteDiff_le (a b : Nat) (ha : a ≤ 255) (hb : b ≤ 255) :
    sqByteDiff a b ≤ 65025 := by
  unfold sqByteDiff
  rw [pow_two]
  exact Nat.mul_le_mul (byte_diff_natAbs_le a b ha hb) (byte_diff_natAbs_le a b ha hb)

theorem uint32_of_eq (x : Int) (h0 : 0 ≤ x) (h : x < 4294967296) :
    uint32_of x = x.toNat := by
  unfold uint32_of
  rw [Int.emod_eq_of_lt h0 h]

theorem bgrSqDiff_le (t f : Nat → Nat) (tstep n : Nat)
    (ht : IsByteBuf t) (hf : IsByteBuf f) : bgrSqDiff t f tstep n ≤ 195075 := by
  unfold bgrSqDiff
  have h1 := sqByteDiff_le (t (tstep * n)) (f (3 * n)) (ht _) (hf _)
  have h2 := sqByteDiff_le (t (tstep * n + 1)) (f (3 * n + 1)) (ht _) (hf _)
  have h3 := sqByteDiff_le (t (tstep * n + 2)) (f (3 * n + 2)) (ht _) (hf _)
  omega

/-! ## Exactness of the per-row loops -/

theorem sqdiff_U8_exact (a b : Nat → Nat) (len : Nat)
    (ha : IsByteBuf a) (hb : IsByteBuf b) (hlen : len < 65536) :
    sqdiff_U8 a b len = ∑ n in Finset.range len, sqByteDiff (a n) (b n) := by
  unfold sqdiff_U8
  rw [foldl_add_mod_zero, range_map_sum,
    Finset.sum_congr rfl (fun n _ => term_U8_eq (a n) (b n) (ha n) (hb n))]
  have hbd : (∑ n in Finset.range len, sqByteDiff (a n) (b n)) ≤ len * 65025 :=
    sum_range_le _ 65025 len (fun i _ => sqByteDiff_le _ _ (ha i) (hb i))
  exact Nat.mod_eq_of_lt (lt_of_le_of_lt hbd
    (lt_of_le_of_lt (Nat.mul_le_mul (show len ≤ 65535 by omega) (le_refl 65025))
      (by norm_num [UINT32_MOD])))

theorem sqdiff_U8_row_lt (a b : Nat → Nat) (len : Nat)
    (ha : IsByteBuf a) (hb : IsByteBuf b) (hlen : len < 65536) :
    (∑ n in Finset.range len, sqByteDiff (a n) (b n)) < UINT32_MOD := by
  have hbd : (∑ n in Finset.range len, sqByteDiff (a n) (b n)) ≤ len * 65025 :=
    sum_range_le _ 65025 len (fun i _ => sqByteDiff_le _ _ (ha i) (hb i))
  exact lt_of_le_of_lt hbd
    (lt_of_le_of_lt (Nat.mul_le_mul (show len ≤ 65535 by omega) (le_refl 65025))
      (by norm_num [UINT32_MOD]))

theorem term_BGRstep_eq (t f : Nat → Nat) (tstep n : Nat)
    (ht : IsByteBuf t) (hf : IsByteBuf f) :
    uint32_of
      (int16_of ((t (tstep * n) : Int) - f (3 * n)) *
         int16_of ((t (tstep * n) : Int) - f (3 * n)) +
       int16_of ((t (tstep * n + 1) : Int) - f (3 * n + 1)) *
         int16_of ((t (tstep * n + 1) : Int) - f (3 * n + 1)) +
       int16_of ((t (tstep * n + 2) : Int) - f (3 * n + 2)) *
         int16_of ((t (tstep * n + 2) : Int) - f (3 * n + 2))) =
      bgrSqDiff t f tstep n := by
  rw [byte_diff_int16 _ _ (ht _) (hf _), byte_diff_int16 _ _ (ht _) (hf _),
    byte_diff_int16 _ _ (ht _) (hf _)]
  have e : ∀ (x y : Nat), ((x : Int) - y) * ((x : Int) - y) = ((sqByteDiff x y : Nat) : Int) := by
    intro x y
    unfold sqByteDiff
    rw [pow_two]
    exact Int.natAbs_mul_self.symm
  rw [e, e, e]
  have key : ((sqByteDiff (t (tstep * n)) (f (3 * n)) : Nat) : Int) +
      ((sqByteDiff (t (tstep * n + 1)) (f (3 * n + 1)) : Nat) : Int) +
      ((sqByteDiff (t (tstep * n + 2)) (f (3 * n + 2)) : Nat) : Int) =
      ((bgrSqDiff t f tstep n : Nat) : Int) := by
    unfold bgrSqDiff
    push_cast
    ring
  rw [key, uint32_of_eq _ (Int.natCast_nonneg _)
    (by exact_mod_cast lt_of_le_of_lt (bgrSqDiff_le t f tstep n ht hf) (by norm_num)),
    Int.toNat_natCast]

theorem sqdiff_BGRx_exact (t f : Nat → Nat) (len : Nat)
    (ht : IsByteBuf t) (hf : IsByteBuf f) (hlen : len ≤ 16383) :
    sqdiff_BGRx t f len = ∑ n in Finset.range len, bgrSqDiff t f 4 n := by
  unfold sqdiff_BGRx
  rw [foldl_add_mod_zero, range_map_sum,
    Finset.sum_congr rfl (fun n _ => term_BGRstep_eq t f 4 n ht hf)]
  have hbd : (∑ n in Finset.range len, bgrSqDiff t f 4 n) ≤ len * 195075 :=
    sum_range_le _ 195075 len (fun i _ => bgrSqDiff_le t f 4 i ht hf)
  exact Nat.mod_eq_of_lt (lt_of_le_of_lt hbd
    (lt_of_le_of_lt (Nat.mul_le_mul hlen (le_refl 195075))
      (by norm_num [UINT32_MOD])))

theorem sqdiff_BGRx_row_lt (t f : Nat → Nat) (len : Nat)
    (ht : IsByteBuf t) (hf : IsByteBuf f) (hlen : len ≤ 16383) :
    (∑ n in Finset.range len, bgrSqDiff t f 4 n) < UINT32_MOD := by
  have hbd : (∑ n in Finset.range len, bgrSqDiff t f 4 n) ≤ len * 195075 :=
    sum_range_le _ 195075 len (fun i _ => bgrSqDiff_le t f 4 i ht hf)
  exact lt_of_le_of_lt hbd
    (lt_of_le_of_lt (Nat.mul_le_mul hlen (le_refl 195075))
      (by norm_num [UINT32_MOD]))

theorem sqdiff_BGRA_present_le (t : Nat → Nat) (n : Nat) :
    sqdiff_BGRA_present t n ≤ 1 := by
  unfold sqdiff_BGRA_present
  split <;> omega

theorem sqdiff_BGRA_px_eq (t f : Nat → Nat) (n : Nat)
    (ht : IsByteBuf t) (hf : IsByteBuf f) :
    sqdiff_BGRA_px t f n = bgrSqDiff t f 4 n := by
  unfold sqdiff_BGRA_px
  rw [term_U8_eq _ _ (ht _) (hf _), term_U8_eq _ _ (ht _) (hf _),
    term_U8_eq _ _ (ht _) (hf _)]
  have hle := bgrSqDiff_le t f 4 n ht hf
  unfold bgrSqDiff at hle ⊢
  exact Nat.mod_eq_of_lt (by norm_num [UINT32_MOD]; omega)

theorem sqdiff_BGRA_exact (t f : Nat → Nat) (len : Nat)
    (ht : IsByteBuf t) (hf : IsByteBuf f) (hlen : len ≤ 16383) :
    sqdiff_BGRA t f len =
      (∑ n in Finset.range len, bgrSqDiff t f 4 n * sqdiff_BGRA_present t n,
       ∑ n in Finset.range len, sqdiff_BGRA_present t n) := by
  unfold sqdiff_BGRA
  rw [foldl_add_mod_pair_zero, range_map_sum, range_map_sum]
  have hterm : ∀ n ∈ Finset.range len,
      sqdiff_BGRA_px t f n * sqdiff_BGRA_present t n % UINT32_MOD =
        bgrSqDiff t f 4 n * sqdiff_BGRA_present t n := by
    intro n _
    rw [sqdiff_BGRA_px_eq t f n ht hf]
    have h1 := bgrSqDiff_le t f 4 n ht hf
    have h2 := sqdiff_BGRA_present_le t n
    exact Nat.mod_eq_of_lt (by
      have : bgrSqDiff t f 4 n * sqdiff_BGRA_present t n ≤ 195075 * 1 :=
        Nat.mul_le_mul h1 h2
      norm_num [UINT32_MOD]; omega)
  rw [Finset.sum_congr rfl hterm]
  have hb1 : (∑ n in Finset.range len, bgrSqDiff t f 4 n * sqdiff_BGRA_present t n) ≤
      len * 195075 :=
    sum_range_le _ 195075 len (fun i _ => by
      have h1 := bgrSqDiff_le t f 4 i ht hf
      have h2 := sqdiff_BGRA_present_le t i
      calc bgrSqDiff t f 4 i * sqdiff_BGRA_present t i ≤ 195075 * 1 :=
            Nat.mul_le_mul h1 h2
        _ = 195075 := by norm_num)
  have hb2 : (∑ n in Finset.range len, sqdiff_BGRA_present t n) ≤ len * 1 :=
    sum_range_le _ 1 len (fun i _ => sqdiff_BGRA_present_le t i)
  have e1 : (∑ n in Finset.range len, bgrSqDiff t f 4 n * sqdiff_BGRA_present t n) %
      UINT32_MOD = ∑ n in Finset.range len, bgrSqDiff t f 4 n * sqdiff_BGRA_present t n :=
    Nat.mod_eq_of_lt (lt_of_le_of_lt hb1
      (lt_of_le_of_lt (Nat.mul_le_mul hlen (le_refl 195075)) (by norm_num [UINT32_MOD])))
  have e2 : (∑ n in Finset.range len, sqdiff_BGRA_present t n) % UINT16_MOD =
      ∑ n in Finset.range len, sqdiff_BGRA_present t n :=
    Nat.mod_eq_of_lt (lt_of_le_of_lt hb2 (by norm_num [UINT16_MOD]; omega))
  rw [e1, e2]

/-! ## Per-depth specification sums and the asserted preconditions -/

/-- The exact mathematical sum of squared channel differences contributed
by row y, per layout. -/
def sqdiffSpecRow (t : Nat → Nat) (ts : Nat) (f : Nat → Nat) (fs w y : Nat) :
    PixelDepth → Nat
  | .PIXEL_DEPTH_U8 =>
      ∑ x in Finset.range w, sqByteDiff (t (y * ts + x)) (f (y * fs + x))
  | .PIXEL_DEPTH_BGR =>
      ∑ x in Finset.range (w * 3), sqByteDiff (t (y * ts + x)) (f (y * fs + x))
  | .PIXEL_DEPTH_BGRx =>
      ∑ x in Finset.range w,
        bgrSqDiff (fun i => t (y * ts + i)) (fun i => f (y * fs + i)) 4 x
  | .PIXEL_DEPTH_BGRA =>
      ∑ x in Finset.range w,
        bgrSqDiff (fun i => t (y * ts + i)) (fun i => f (y * fs + i)) 4 x *
          sqdiff_BGRA_present (fun i => t (y * ts + i)) x

/-- The exact mathematical total, per layout. -/
def sqdiffSpecTotal (t : Nat → Nat) (ts : Nat) (f : Nat → Nat) (fs w h : Nat)
    (depth : PixelDepth) : Nat :=
  ∑ y in Finset.range h, sqdiffSpecRow t ts f fs w y depth

/-- The exact compared-channel count, per layout. -/
def sqdiffSpecCount (t : Nat → Nat) (ts w h : Nat) : PixelDepth → Nat
  | .PIXEL_DEPTH_U8 => w * h
  | .PIXEL_DEPTH_BGR => w * h * 3
  | .PIXEL_DEPTH_BGRx => w * h * 3
  | .PIXEL_DEPTH_BGRA =>
      (∑ y in Finset.range h, ∑ x in Finset.range w,
        sqdiff_BGRA_present (fun i => t (y * ts + i)) x) * 3

/-- The stride preconditions asserted by `sqdiff` for each layout. -/
def sqdiffAsserts (ts fs w : Nat) : PixelDepth → Prop
  | .PIXEL_DEPTH_U8 => w ≤ ts ∧ w ≤ fs
  | .PIXEL_DEPTH_BGR => w * 3 ≤ ts ∧ w * 3 ≤ fs
  | .PIXEL_DEPTH_BGRx => w * 4 ≤ ts ∧ w * 3 ≤ fs
  | .PIXEL_DEPTH_BGRA => w * 4 ≤ ts ∧ w * 3 ≤ fs

/-! ## Exactness of sqdiff, per layout -/

theorem sqdiff_exact_U8 (t : Nat → Nat) (ts : Nat) (f : Nat → Nat) (fs w h : Nat)
    (ht : IsByteBuf t) (hf : IsByteBuf f)
    (hw16 : w < 65536) (hh16 : h < 65536) :
    sqdiff t ts f fs w h .PIXEL_DEPTH_U8 =
      ⟨sqdiffSpecTotal t ts f fs w h .PIXEL_DEPTH_U8, w * h⟩ := by
  unfold sqdiff sqdiffSpecTotal
  have row_eq : ∀ y ∈ Finset.range h,
      sqdiff_U8 (fun i => t (y * ts + i)) (fun i => f (y * fs + i)) w =
        sqdiffSpecRow t ts f fs w y .PIXEL_DEPTH_U8 := by
    intro y _
    exact sqdiff_U8_exact _ _ w (fun i => ht _) (fun i => hf _) hw16
  have row_le : ∀ y, y < h → sqdiffSpecRow t ts f fs w y .PIXEL_DEPTH_U8 ≤ w * 65025 :=
    fun y _ => sum_range_le _ 65025 w (fun x _ => sqByteDiff_le _ _ (ht _) (hf _))
  simp only [SqdiffResult.mk.injEq]
  constructor
  · rw [foldl_add_mod_zero, range_map_sum, Finset.sum_congr rfl row_eq]
    refine Nat.mod_eq_of_lt (lt_of_le_of_lt (sum_range_le _ (w * 65025) h row_le) ?_)
    calc h * (w * 65025) ≤ 65535 * (65535 * 65025) :=
          Nat.mul_le_mul (by omega) (Nat.mul_le_mul (by omega) (le_refl 65025))
      _ < UINT64_MOD := by norm_num [UINT64_MOD]
  · refine Nat.mod_eq_of_lt (lt_of_le_of_lt (Nat.mul_le_mul (show w ≤ 65535 by omega)
      (show h ≤ 65535 by omega)) ?_)
    norm_num [UINT32_MOD]

theorem sqdiff_exact_BGR (t : Nat → Nat) (ts : Nat) (f : Nat → Nat) (fs w h : Nat)
    (ht : IsByteBuf t) (hf : IsByteBuf f)
    (hh16 : h < 65536) (hts : ts < 65536) (hw3 : w * 3 ≤ ts) :
    sqdiff t ts f fs w h .PIXEL_DEPTH_BGR =
      ⟨sqdiffSpecTotal t ts f fs w h .PIXEL_DEPTH_BGR, w * h * 3⟩ := by
  have hw3' : w * 3 < 65536 := by omega
  have hlen : w * 3 % UINT16_MOD = w * 3 := Nat.mod_eq_of_lt (by
    norm_num [UINT16_MOD]; omega)
  unfold sqdiff sqdiffSpecTotal
  rw [hlen]
  have row_eq : ∀ y ∈ Finset.range h,
      sqdiff_U8 (fun i => t (y * ts + i)) (fun i => f (y * fs + i)) (w * 3) =
        sqdiffSpecRow t ts f fs w y .PIXEL_DEPTH_BGR := by
    intro y _
    exact sqdiff_U8_exact _ _ (w * 3) (fun i => ht _) (fun i => hf _) hw3'
  have row_le : ∀ y, y < h →
      sqdiffSpecRow t ts f fs w y .PIXEL_DEPTH_BGR ≤ w * 3 * 65025 :=
    fun y _ => sum_range_le _ 65025 (w * 3) (fun x _ => sqByteDiff_le _ _ (ht _) (hf _))
  simp only [SqdiffResult.mk.injEq]
  constructor
  · rw [foldl_add_mod_zero, range_map_sum, Finset.sum_congr rfl row_eq]
    refine Nat.mod_eq_of_lt (lt_of_le_of_lt (sum_range_le _ (w * 3 * 65025) h row_le) ?_)
    calc h * (w * 3 * 65025) ≤ 65535 * (65535 * 65025) :=
          Nat.mul_le_mul (by omega) (Nat.mul_le_mul (by omega) (le_refl 65025))
      _ < UINT64_MOD := by norm_num [UINT64_MOD]
  · refine Nat.mod_eq_of_lt (lt_of_le_of_lt (show w * h * 3 ≤ 65535 * 65535 by
      have : w * h * 3 = w * 3 * h := by ring
      rw [this]
      exact Nat.mul_le_mul (by omega) (by omega)) ?_)
    norm_num [UINT32_MOD]

theorem sqdiff_exact_BGRx (t : Nat → Nat) (ts : Nat) (f : Nat → Nat) (fs w h : Nat)
    (ht : IsByteBuf t) (hf : IsByteBuf f)
    (hh16 : h < 65536) (hts : ts < 65536) (hw4 : w * 4 ≤ ts) :
    sqdiff t ts f fs w h .PIXEL_DEPTH_BGRx =
      ⟨sqdiffSpecTotal t ts f fs w h .PIXEL_DEPTH_BGRx, w * h * 3⟩ := by
  have hw : w ≤ 16383 := by omega
  unfold sqdiff sqdiffSpecTotal
  have row_eq : ∀ y ∈ Finset.range h,
      sqdiff_BGRx (fun i => t (y * ts + i)) (fun i => f (y * fs + i)) w =
        sqdiffSpecRow t ts f fs w y .PIXEL_DEPTH_BGRx := by
    intro y _
    exact sqdiff_BGRx_exact _ _ w (fun i => ht _) (fun i => hf _) hw
  have row_le : ∀ y, y < h →
      sqdiffSpecRow t ts f fs w y .PIXEL_DEPTH_BGRx ≤ w * 195075 :=
    fun y _ => sum_range_le _ 195075 w
      (fun x _ => bgrSqDiff_le _ _ 4 x (fun i => ht _) (fun i => hf _))
  simp only [SqdiffResult.mk.injEq]
  constructor
  · rw [foldl_add_mod_zero, range_map_sum, Finset.sum_congr rfl row_eq]
    refine Nat.mod_eq_of_lt (lt_of_le_of_lt (sum_range_le _ (w * 195075) h row_le) ?_)
    calc h * (w * 195075) ≤ 65535 * (16383 * 195075) :=
          Nat.mul_le_mul (by omega) (Nat.mul_le_mul hw (le_refl 195075))
      _ < UINT64_MOD := by norm_num [UINT64_MOD]
  · refine Nat.mod_eq_of_lt (lt_of_le_of_lt (show w * h * 3 ≤ 16383 * 65535 * 3 by
      exact Nat.mul_le_mul (Nat.mul_le_mul hw (by omega)) (le_refl 3)) ?_)
    norm_num [UINT32_MOD]

theorem sqdiff_exact_BGRA (t : Nat → Nat) (ts : Nat) (f : Nat → Nat) (fs w h : Nat)
    (ht : IsByteBuf t) (hf : IsByteBuf f)
    (hh16 : h < 65536) (hts : ts < 65536) (hw4 : w * 4 ≤ ts) :
    sqdiff t ts f fs w h .PIXEL_DEPTH_BGRA =
      ⟨sqdiffSpecTotal t ts f fs w h .PIXEL_DEPTH_BGRA,
       sqdiffSpecCount t ts w h .PIXEL_DEPTH_BGRA⟩ := by
  have hw : w ≤ 16383 := by omega
  unfold sqdiff sqdiffSpecTotal sqdiffSpecCount
  rw [foldl_add_mod_pair_zero, range_map_sum, range_map_sum]
  have row_pair : ∀ y, sqdiff_BGRA (fun i => t (y * ts + i)) (fun i => f (y * fs + i)) w =
      (sqdiffSpecRow t ts f fs w y .PIXEL_DEPTH_BGRA,
       ∑ x in Finset.range w, sqdiff_BGRA_present (fun i => t (y * ts + i)) x) :=
    fun y => sqdiff_BGRA_exact _ _ w (fun i => ht _) (fun i => hf _) hw
  have row1_eq : ∀ y ∈ Finset.range h,
      (sqdiff_BGRA (fun i => t (y * ts + i)) (fun i => f (y * fs + i)) w).1 =
        sqdiffSpecRow t ts f fs w y .PIXEL_DEPTH_BGRA := by
    intro y _; rw [row_pair y]
  have row2_eq : ∀ y ∈ Finset.range h,
      (sqdiff_BGRA (fun i => t (y * ts + i)) (fun i => f (y * fs + i)) w).2 =
        ∑ x in Finset.range w, sqdiff_BGRA_present (fun i => t (y * ts + i)) x := by
    intro y _; rw [row_pair y]
  have row_le : ∀ y, y < h →
      sqdiffSpecRow t ts f fs w y .PIXEL_DEPTH_BGRA ≤ w * 195075 := by
    intro y _
    refine sum_range_le _ 195075 w (fun x _ => ?_)
    calc bgrSqDiff (fun i => t (y * ts + i)) (fun i => f (y * fs + i)) 4 x *
          sqdiff_BGRA_present (fun i => t (y * ts + i)) x ≤ 195075 * 1 :=
          Nat.mul_le_mul (bgrSqDiff_le _ _ 4 x (fun i => ht _) (fun i => hf _))
            (sqdiff_BGRA_present_le _ x)
      _ = 195075 := by norm_num
  have cnt_le : ∀ y, y < h →
      (∑ x in Finset.range w, sqdiff_BGRA_present (fun i => t (y * ts + i)) x) ≤ w * 1 :=
    fun y _ => sum_range_le _ 1 w (fun x _ => sqdiff_BGRA_present_le _ x)
  simp only [SqdiffResult.mk.injEq]
  constructor
  · rw [Finset.sum_congr rfl row1_eq]
    refine Nat.mod_eq_of_lt (lt_of_le_of_lt (sum_range_le _ (w * 195075) h row_le) ?_)
    calc h * (w * 195075) ≤ 65535 * (16383 * 195075) :=
          Nat.mul_le_mul (by omega) (Nat.mul_le_mul hw (le_refl 195075))
      _ < UINT64_MOD := by norm_num [UINT64_MOD]
  · rw [Finset.sum_congr rfl row2_eq]
    have hsum : (∑ y in Finset.range h, ∑ x in Finset.range w,
        sqdiff_BGRA_present (fun i => t (y * ts + i)) x) ≤ h * (w * 1) :=
      sum_range_le _ (w * 1) h cnt_le
    have hclt : (∑ y in Finset.range h, ∑ x in Finset.range w,
        sqdiff_BGRA_present (fun i => t (y * ts + i)) x) ≤ 16383 * 65535 := by
      calc (∑ y in Finset.range h, ∑ x in Finset.range w,
          sqdiff_BGRA_present (fun i => t (y * ts + i)) x) ≤ h * (w * 1) := hsum
        _ ≤ 65535 * (16383 * 1) := Nat.mul_le_mul (by omega) (Nat.mul_le_mul hw (le_refl 1))
        _ ≤ 16383 * 65535 := by norm_num
    rw [Nat.mod_eq_of_lt (lt_of_le_of_lt hclt (by norm_num [UINT32_MOD]))]
    exact Nat.mod_eq_of_lt (lt_of_le_of_lt
      (Nat.mul_le_mul hclt (le_refl 3)) (by norm_num [UINT32_MOD]))

theorem bufOf_isByteBuf (l : List Nat) (hl : ∀ x ∈ l, x ≤ 255) :
    IsByteBuf (bufOf l) := by
  intro i
  unfold bufOf
  induction l generalizing i with
  | nil => simp [List.getD]
  | cons a as ih =>
    cases i with
    | zero => exact hl a (by simp)
    | succ j =>
      simpa [List.getD] using ih (fun x hx => hl x (by simp [hx])) j

/-! ## OpenCV primitives, as used by the gst elements

Grayscale images are functions row → column → byte value; BGR images are
functions row → column → (b, g, r).  The C `(int)` cast of a
nonnegative float is modelled as truncating division on exact rational
arithmetic. -/

/-- The C cast `(int)q`: truncation toward zero. -/
def c_trunc (q : ℚ) : Int := Int.tdiv q.num q.den

/-- cvCvtColor CV_BGR2GRAY on one pixel: the OpenCV fixed-point
conversion gray = (4899 r + 9617 g + 1868 b + 2^13) >> 14. -/
def bgr2gray (px : Nat × Nat × Nat) : Nat :=
  (px.1 * 1868 + px.2.1 * 9617 + px.2.2 * 4899 + 8192) / 16384

/-- cvCvtColor CV_BGR2GRAY on a whole image. -/
def cvCvtColor_BGR2GRAY (img : Nat → Nat → Nat × Nat × Nat) : Nat → Nat → Nat :=
  fun y x => bgr2gray (img y x)

/-- cvAbsDiff on 8-bit images. -/
def cvAbsDiff (a b : Nat → Nat → Nat) : Nat → Nat → Nat :=
  fun y x => ((a y x : Int) - b y x).natAbs

/-- cvThreshold with CV_THRESH_BINARY: dst = maxval if src is strictly
greater than the threshold, else 0. -/
def cvThreshold_BINARY (src : Nat → Nat → Nat) (threshold : Int) (maxval : Nat) :
    Nat → Nat → Nat :=
  fun y x => if threshold < (src y x : Int) then maxval else 0

/-- The offsets of the 3x3 elliptical structuring element with anchor
(1,1), as built by cvCreateStructuringElementEx (3, 3, 1, 1,
CV_SHAPE_ELLIPSE): the cross around the anchor. -/
def ellipseKernel3x3 : List (Int × Int) :=
  [(-1, 0), (0, -1), (0, 0), (0, 1), (1, 0)]

/-- One pass of cvErode with the 3x3 elliptical kernel on a w-by-h 8-bit
image: the minimum over the in-bounds kernel neighbourhood (out-of-bounds
samples take the erosion border value, plus infinity, modelled by 255,
the largest 8-bit value). -/
def cvErode3x3 (w h : Nat) (src : Nat → Nat → Nat) : Nat → Nat → Nat :=
  fun y x =>
    (ellipseKernel3x3.filterMap (fun d =>
      if 0 ≤ (y : Int) + d.1 ∧ (y : Int) + d.1 < h ∧
         0 ≤ (x : Int) + d.2 ∧ (x : Int) + d.2 < w then
        some (src ((y : Int) + d.1).toNat ((x : Int) + d.2).toNat)
      else none)).foldl min 255

/-- cvErode with an iteration count. -/
def cvErodeN (w h : Nat) : Nat → (Nat → Nat → Nat) → Nat → Nat → Nat
  | 0, src => src
  | n + 1, src => cvErodeN w h n (cvErode3x3 w h src)

/-- Whether a pixel belongs to the nonzero region of an optional mask
(no mask means every pixel belongs). -/
def maskAllows (mask : Option (Nat → Nat → Nat)) (y x : Nat) : Bool :=
  match mask with
  | none => true
  | some m => m y x != 0

/-- The maximum reported by cvMinMaxLoc over the nonzero region of an
optional mask (0 if the region is empty). -/
def cvMaxVal (w h : Nat) (img : Nat → Nat → Nat)
    (mask : Option (Nat → Nat → Nat)) : Nat :=
  ((List.range h).map (fun y =>
    (((List.range w).filter (fun x => maskAllows mask y x)).map (img y)).foldl
      max 0)).foldl max 0

/-- The minimum reported by cvMinMaxLoc over a whole image (folded from
the first pixel, as OpenCV scans from it). -/
def cvMinVal (w h : Nat) (img : Nat → Nat → Nat) : Nat :=
  (((List.range h).map (fun y => (List.range w).map (img y))).flatten).foldl
    min (img 0 0)

/-- cvCountNonZero on a w-by-h image. -/
def cvCountNonZero (w h : Nat) (img : Nat → Nat → Nat) : Nat :=
  ((List.range h).map (fun y =>
    ((List.range w).filter (fun x => img y x != 0)).length)).sum

/-- cvRound: round half to even, the rounding used by OpenCV saturate
casts. -/
def cvRound (q : ℚ) : Int :=
  if q - ⌊q⌋ < 1 / 2 then ⌊q⌋
  else if 1 / 2 < q - ⌊q⌋ then ⌊q⌋ + 1
  else if ⌊q⌋ % 2 = 0 then ⌊q⌋ else ⌊q⌋ + 1

/-- saturate_cast to an unsigned 8-bit value. -/
def saturate_cast_u8 (z : Int) : Nat := (max 0 (min 255 z)).toNat

/-- cvNormalize with CV_MINMAX to the range [0,255]: linear stretch of
the pixel value range; for a degenerate range OpenCV uses scale 0 and
shift 0, giving an all-zero image. -/
def cvNormalizeMinMax (w h : Nat) (img : Nat → Nat → Nat) : Nat → Nat → Nat :=
  fun y x =>
    if cvMaxVal w h img none = cvMinVal w h img then 0
    else saturate_cast_u8 (cvRound
      (((img y x : ℚ) - cvMinVal w h img) * 255 /
        ((cvMaxVal w h img none : ℚ) - cvMinVal w h img)))

/-- cvSetImageROI: the view of an image restricted to a rectangle with
the given top-left corner. -/
def cvSetImageROI (img : Nat → Nat → Nat × Nat × Nat) (x0 y0 : Nat) :
    Nat → Nat → Nat × Nat × Nat :=
  fun y x => img (y0 + y) (x0 + x)

/-! ## src/gst/gstmotiondetect.c -/

/-- The motion-detect state enumeration. -/
inductive MotionDetectState
  | MOTION_DETECT_STATE_INITIALISING
  | MOTION_DETECT_STATE_ACQUIRING_REFERENCE_IMAGE
  | MOTION_DETECT_STATE_REFERENCE_IMAGE_ACQUIRED
deriving DecidableEq

/-- The StbtMotionDetect filter state: the two owned grayscale buffers
are modelled as an arena of two images with a flag saying which one
cvReferenceImageGray currently points at (the pointer swap in
transform_ip flips the flag; no pixel data is copied). -/
structure StbtMotionDetect where
  enabled : Bool
  state : MotionDetectState
  refSlot : Bool
  gray0 : Nat → Nat → Nat
  gray1 : Nat → Nat → Nat
  cvMaskImage : Option (Nat → Nat → Nat)
  noiseThreshold : ℚ

def StbtMotionDetect.cvReferenceImageGray (fl : StbtMotionDetect) :
    Nat → Nat → Nat :=
  if fl.refSlot then fl.gray1 else fl.gray0

def StbtMotionDetect.cvCurrentImageGray (fl : StbtMotionDetect) :
    Nat → Nat → Nat :=
  if fl.refSlot then fl.gray0 else fl.gray1

/-- Writing into the buffer cvCurrentImageGray points at. -/
def StbtMotionDetect.writeCur (fl : StbtMotionDetect) (img : Nat → Nat → Nat) :
    StbtMotionDetect :=
  if fl.refSlot then { fl with gray0 := img } else { fl with gray1 := img }

/-- Writing into the buffer cvReferenceImageGray points at. -/
def StbtMotionDetect.writeRef (fl : StbtMotionDetect) (img : Nat → Nat → Nat) :
    StbtMotionDetect :=
  if fl.refSlot then { fl with gray1 := img } else { fl with gray0 := img }

/-- gst_motiondetect_set_property for the enabled property: setting
enabled to TRUE drops the reference image by moving to the acquiring
state. -/
def gst_motiondetect_set_enabled (fl : StbtMotionDetect) (e : Bool) :
    StbtMotionDetect :=
  { fl with enabled := e
            state := if e then .MOTION_DETECT_STATE_ACQUIRING_REFERENCE_IMAGE
                     else fl.state }

/-- The result of gst_motiondetect_apply: the verdict, and the content
the routine leaves in the buffer passed as cvReferenceImage (the C code
aliases cvAbsDiffImage to cvReferenceImage and computes in place). -/
structure MDApplyResult where
  hasMotion : Bool
  referenceImageAfter : Nat → Nat → Nat

/-- gst_motiondetect_apply from gstmotiondetect.c: absolute difference
of reference and current, binarized with CV_THRESH_BINARY at
(int)((1 - noiseThreshold) * 255), eroded once with the 3x3 elliptical
kernel; the verdict is whether the maximum over the mask region of the
eroded map exceeds 0.  All three steps write into the reference image
buffer. -/
def gst_motiondetect_apply (w h : Nat)
    (cvReferenceImage cvCurrentImage : Nat → Nat → Nat)
    (cvMaskImage : Option (Nat → Nat → Nat)) (noiseThreshold : ℚ) :
    MDApplyResult :=
  { hasMotion := 0 < cvMaxVal w h
      (cvErodeN w h 1 (cvThreshold_BINARY
        (cvAbsDiff cvReferenceImage cvCurrentImage)
        (c_trunc ((1 - noiseThreshold) * 255)) 255)) cvMaskImage
    referenceImageAfter := cvErodeN w h 1 (cvThreshold_BINARY
      (cvAbsDiff cvReferenceImage cvCurrentImage)
      (c_trunc ((1 - noiseThreshold) * 255)) 255) }

/-- The result of one gst_motiondetect_transform_ip call: the new filter
state and the motiondetect message posted, if any (carrying the
has_motion verdict). -/
structure MDStepResult where
  filter : StbtMotionDetect
  message : Option Bool

/-- gst_motiondetect_transform_ip from gstmotiondetect.c, for one frame:
when enabled and past initialisation, convert the frame to grayscale
into the current buffer; if a reference was already acquired, run
gst_motiondetect_apply (which overwrites the reference buffer) and post
a verdict message; in every processed frame, swap the reference and
current buffers (pointer swap) and move to the reference-acquired
state. -/
def gst_motiondetect_transform_ip (w h : Nat) (fl : StbtMotionDetect)
    (buf : Nat → Nat → Nat × Nat × Nat) : MDStepResult :=
  if fl.enabled = true ∧ fl.state ≠ .MOTION_DETECT_STATE_INITIALISING then
    let fl1 := fl.writeCur (cvCvtColor_BGR2GRAY buf)
    if fl1.state = .MOTION_DETECT_STATE_REFERENCE_IMAGE_ACQUIRED then
      let r := gst_motiondetect_apply w h fl1.cvReferenceImageGray
        fl1.cvCurrentImageGray fl1.cvMaskImage fl1.noiseThreshold
      let fl2 := fl1.writeRef r.referenceImageAfter
      { filter := { fl2 with
          refSlot := !fl2.refSlot
          state := .MOTION_DETECT_STATE_REFERENCE_IMAGE_ACQUIRED }
        message := some r.hasMotion }
    else
      { filter := { fl1 with
          refSlot := !fl1.refSlot
          state := .MOTION_DETECT_STATE_REFERENCE_IMAGE_ACQUIRED }
        message := none }
  else { filter := fl, message := none }

/-- Delivery of a sequence of frames: the final filter state and the
per-frame message slots, in order. -/
def gst_motiondetect_process (w h : Nat) :
    StbtMotionDetect → List (Nat → Nat → Nat × Nat × Nat) →
      StbtMotionDetect × List (Option Bool)
  | fl, [] => (fl, [])
  | fl, buf :: bufs =>
    let r := gst_motiondetect_transform_ip w h fl buf
    let rest := gst_motiondetect_process w h r.filter bufs
    (rest.1, r.message :: rest.2)

/-! ## src/gst/gsttemplatematch.c: the confirm step -/

/-- The confirm method enumeration. -/
inductive GstTMConfirmMethod
  | GST_TM_CONFIRM_METHOD_NONE
  | GST_TM_CONFIRM_METHOD_ABSDIFF
  | GST_TM_CONFIRM_METHOD_NORMED_ABSDIFF
deriving DecidableEq

/-- gst_templatematch_confirm_absdiff from gsttemplatematch.c: grayscale
of the ROI of the input at bestPos (sized to the template), absolute
difference against the template grayscale, binarized with
CV_THRESH_BINARY at (int)(confirmThreshold * 255), eroded erodePasses
times with the 3x3 elliptical kernel; confirmed iff no nonzero pixel
remains. -/
def gst_templatematch_confirm_absdiff (wT hT : Nat)
    (input : Nat → Nat → Nat × Nat × Nat) (templateGray : Nat → Nat → Nat)
    (confirmThreshold : ℚ) (bestPos : Nat × Nat) (erodePasses : Nat) : Bool :=
  cvCountNonZero wT hT
    (cvErodeN wT hT erodePasses
      (cvThreshold_BINARY
        (cvAbsDiff
          (cvCvtColor_BGR2GRAY (cvSetImageROI input bestPos.1 bestPos.2))
          templateGray)
        (c_trunc (confirmThreshold * 255)) 255)) == 0

/-- gst_templatematch_confirm_normed_absdiff from gsttemplatematch.c: as
the absdiff method, but both the ROI grayscale and the template
grayscale are min-max normalized to [0,255] before the absolute
difference. -/
def gst_templatematch_confirm_normed_absdiff (wT hT : Nat)
    (input : Nat → Nat → Nat × Nat × Nat) (templateGray : Nat → Nat → Nat)
    (confirmThreshold : ℚ) (bestPos : Nat × Nat) (erodePasses : Nat) : Bool :=
  cvCountNonZero wT hT
    (cvErodeN wT hT erodePasses
      (cvThreshold_BINARY
        (cvAbsDiff
          (cvNormalizeMinMax wT hT
            (cvCvtColor_BGR2GRAY (cvSetImageROI input bestPos.1 bestPos.2)))
          (cvNormalizeMinMax wT hT templateGray))
        (c_trunc (confirmThreshold * 255)) 255)) == 0

/-- gst_templatematch_confirm from gsttemplatematch.c: dispatch on the
confirm method; method none trusts the coarse match. -/
def gst_templatematch_confirm (wT hT : Nat)
    (input : Nat → Nat → Nat × Nat × Nat) (templateGray : Nat → Nat → Nat)
    (confirmThreshold : ℚ) (bestPos : Nat × Nat)
    (method : GstTMConfirmMethod) (erodePasses : Nat) : Bool :=
  match method with
  | .GST_TM_CONFIRM_METHOD_NONE => true
  | .GST_TM_CONFIRM_METHOD_ABSDIFF =>
      gst_templatematch_confirm_absdiff wT hT input templateGray
        confirmThreshold bestPos erodePasses
  | .GST_TM_CONFIRM_METHOD_NORMED_ABSDIFF =>
      gst_templatematch_confirm_normed_absdiff wT hT input templateGray
        confirmThreshold bestPos erodePasses

/-! ## Lemmas about the OpenCV models -/

theorem foldl_min_le_init (l : List Nat) : ∀ b, l.foldl min b ≤ b := by
  induction l with
  | nil => intro b; simp
  | cons x xs ih =>
    intro b
    calc (x :: xs).foldl min b = xs.foldl min (min b x) := rfl
      _ ≤ min b x := ih (min b x)
      _ ≤ b := min_le_left b x

theorem foldl_min_le_mem {l : List Nat} {a : Nat} (ha : a ∈ l) :
    ∀ b, l.foldl min b ≤ a := by
  induction l with
  | nil => cases ha
  | cons x xs ih =>
    intro b
    rcases List.mem_cons.mp ha with rfl | hmem
    · calc (a :: xs).foldl min b = xs.foldl min (min b a) := rfl
        _ ≤ min b a := foldl_min_le_init xs (min b a)
        _ ≤ a := min_le_right b a
    · exact ih hmem (min b x)

theorem foldl_max_eq_zero {l : List Nat} (h : ∀ a ∈ l, a = 0) :
    l.foldl max 0 = 0 := by
  induction l with
  | nil => rfl
  | cons x xs ih =>
    have hx : x = 0 := h x (by simp)
    calc (x :: xs).foldl max 0 = xs.foldl max (max 0 x) := rfl
      _ = xs.foldl max 0 := by rw [hx]; simp
      _ = 0 := ih (fun a ha => h a (by simp [ha]))

/-- Erosion never exceeds the value at the anchor pixel. -/
theorem cvErode3x3_le_self (w h : Nat) (src : Nat → Nat → Nat) (y x : Nat)
    (hy : y < h) (hx : x < w) : cvErode3x3 w h src y x ≤ src y x := by
  unfold cvErode3x3
  have hcond : 0 ≤ (y : Int) + 0 ∧ (y : Int) + 0 < h ∧
      0 ≤ (x : Int) + 0 ∧ (x : Int) + 0 < w := by
    refine ⟨by omega, ?_, by omega, ?_⟩ <;> push_cast <;> omega
  have hmem : src y x ∈ ellipseKernel3x3.filterMap (fun d =>
      if 0 ≤ (y : Int) + d.1 ∧ (y : Int) + d.1 < h ∧
         0 ≤ (x : Int) + d.2 ∧ (x : Int) + d.2 < w then
        some (src ((y : Int) + d.1).toNat ((x : Int) + d.2).toNat)
      else none) := by
    refine List.mem_filterMap.mpr ⟨(0, 0), by simp [ellipseKernel3x3], ?_⟩
    rw [if_pos hcond]
    simp
  exact foldl_min_le_mem hmem 255

/-- If the image vanishes on the whole mask region, the masked maximum
is zero. -/
theorem cvMaxVal_eq_zero (w h : Nat) (img : Nat → Nat → Nat)
    (mask : Option (Nat → Nat → Nat))
    (hz : ∀ y x, y < h → x < w → maskAllows mask y x = true → img y x = 0) :
    cvMaxVal w h img mask = 0 := by
  unfold cvMaxVal
  apply foldl_max_eq_zero
  intro a ha
  obtain ⟨y, hy, rfl⟩ := List.mem_map.mp ha
  apply foldl_max_eq_zero
  intro v hv
  obtain ⟨x, hx, rfl⟩ := List.mem_map.mp hv
  have hx' := List.mem_filter.mp hx
  exact hz y x (List.mem_range.mp hy) (List.mem_range.mp hx'.1) hx'.2

/-- The C truncating cast agrees with the floor on nonnegative
rationals. -/
theorem c_trunc_eq_floor (q : ℚ) (h : 0 ≤ q) : c_trunc q = ⌊q⌋ := by
  unfold c_trunc
  rw [Int.tdiv_eq_ediv (Rat.num_nonneg.mpr h) (Int.natCast_nonneg _)]
  exact Rat.floor_def.symm

/-! ## Claim C9 -/

/-- C9: the confirmation step with method none returns true for every
input frame, template, threshold, position and erode pass count. -/
theorem claim_C9_confirm_method_none (wT hT : Nat)
    (input : Nat → Nat → Nat × Nat × Nat) (templateGray : Nat → Nat → Nat)
    (confirmThreshold : ℚ) (bestPos : Nat × Nat) (erodePasses : Nat) :
    gst_templatematch_confirm wT hT input templateGray confirmThreshold bestPos
      .GST_TM_CONFIRM_METHOD_NONE erodePasses = true := rfl

/-! ## Claim C5 -/

/-- Follows the claim wording of C5 for comparison with the code: the
motion pipeline with the binarization threshold computed as
round((1 - noiseThreshold) * 255). -/
def hasMotion_spec_round (w h : Nat) (reference current : Nat → Nat → Nat)
    (mask : Option (Nat → Nat → Nat)) (noiseThreshold : ℚ) : Bool :=
  0 < cvMaxVal w h
    (cvErodeN w h 1 (cvThreshold_BINARY (cvAbsDiff reference current)
      (round ((1 - noiseThreshold) * 255)) 255)) mask

/-- Follows the amended wording of C5: the same pipeline with the
threshold computed by the truncating (int) cast. -/
def hasMotion_spec_trunc (w h : Nat) (reference current : Nat → Nat → Nat)
    (mask : Option (Nat → Nat → Nat)) (noiseThreshold : ℚ) : Bool :=
  0 < cvMaxVal w h
    (cvErodeN w h 1 (cvThreshold_BINARY (cvAbsDiff reference current)
      (c_trunc ((1 - noiseThreshold) * 255)) 255)) mask

/-- Counterexample to C5 as stated: at noiseThreshold 3/4 the code
truncates (1 - 3/4) * 255 = 63.75 to 63 while the claim rounds it to 64;
on the 1x1 pair reference 0 and current 64 the code reports motion but
the claimed round-based pipeline does not. -/
theorem claim_C5_counterexample :
    (gst_motiondetect_apply 1 1 (fun _ _ => 0) (fun _ _ => 64) none
      (3 / 4)).hasMotion = true ∧
    hasMotion_spec_round 1 1 (fun _ _ => 0) (fun _ _ => 64) none (3 / 4) =
      false := by
  have harg : (0 : ℚ) ≤ (1 - 3 / 4) * 255 := by norm_num
  have ht : c_trunc ((1 - (3 / 4 : ℚ)) * 255) = 63 := by
    rw [c_trunc_eq_floor _ harg]
    norm_num
  have hr : round ((1 - (3 / 4 : ℚ)) * 255) = 64 := by
    rw [round_eq]
    norm_num
  constructor
  · have e : (gst_motiondetect_apply 1 1 (fun _ _ => 0) (fun _ _ => 64) none
        (3 / 4)).hasMotion =
        decide (0 < cvMaxVal 1 1 (cvErodeN 1 1 1 (cvThreshold_BINARY
          (cvAbsDiff (fun _ _ => 0) (fun _ _ => 64))
          (c_trunc ((1 - (3 / 4 : ℚ)) * 255)) 255)) none) := rfl
    rw [e, ht]
    decide
  · unfold hasMotion_spec_round
    rw [hr]
    decide

/-- C5 amended: the motion verdict is the claimed pipeline with the
threshold truncated, not rounded; the truncation agrees with the floor
on the admissible parameter range, and a frame identical to the
reference on the whole mask region yields no motion. -/
theorem claim_C5_motion_pipeline (w h : Nat)
    (reference current : Nat → Nat → Nat) (mask : Option (Nat → Nat → Nat))
    (nt : ℚ) (h0 : 0 ≤ nt) (h1 : nt ≤ 1) :
    (gst_motiondetect_apply w h reference current mask nt).hasMotion =
      hasMotion_spec_trunc w h reference current mask nt ∧
    c_trunc ((1 - nt) * 255) = ⌊(1 - nt) * 255⌋ ∧
    ((∀ y x, y < h → x < w → maskAllows mask y x = true →
        current y x = reference y x) →
      (gst_motiondetect_apply w h reference current mask nt).hasMotion =
        false) := by
  have harg : (0 : ℚ) ≤ (1 - nt) * 255 := by nlinarith
  refine ⟨rfl, c_trunc_eq_floor _ harg, ?_⟩
  intro hid
  have ht0 : (0 : Int) ≤ c_trunc ((1 - nt) * 255) := by
    rw [c_trunc_eq_floor _ harg]
    exact Int.le_floor.mpr (by exact_mod_cast harg)
  have hz : ∀ y x, y < h → x < w → maskAllows mask y x = true →
      cvErodeN w h 1 (cvThreshold_BINARY (cvAbsDiff reference current)
        (c_trunc ((1 - nt) * 255)) 255) y x = 0 := by
    intro y x hy hx hm
    have hb : cvThreshold_BINARY (cvAbsDiff reference current)
        (c_trunc ((1 - nt) * 255)) 255 y x = 0 := by
      unfold cvThreshold_BINARY cvAbsDiff
      rw [hid y x hy hx hm, if_neg]
      simp only [sub_self, Int.natAbs_zero]
      omega
    have hle : cvErode3x3 w h (cvThreshold_BINARY (cvAbsDiff reference current)
        (c_trunc ((1 - nt) * 255)) 255) y x ≤ 0 := hb ▸
      cvErode3x3_le_self w h _ y x hy hx
    exact Nat.le_zero.mp hle
  have e : (gst_motiondetect_apply w h reference current mask nt).hasMotion =
      decide (0 < cvMaxVal w h (cvErodeN w h 1 (cvThreshold_BINARY
        (cvAbsDiff reference current) (c_trunc ((1 - nt) * 255)) 255))
        mask) := rfl
  rw [e, cvMaxVal_eq_zero w h _ mask hz]
  decide

/-- Witness for C5: at noiseThreshold 3/4 a 1x1 frame identical to the
reference yields no motion. -/
theorem claim_C5_witness :
    (0 : ℚ) ≤ 3 / 4 ∧ (3 / 4 : ℚ) ≤ 1 ∧
    (gst_motiondetect_apply 1 1 (fun _ _ => 5) (fun _ _ => 5) none
      (3 / 4)).hasMotion = false :=
  ⟨by norm_num, by norm_num,
    (claim_C5_motion_pipeline 1 1 (fun _ _ => 5) (fun _ _ => 5) none (3 / 4)
      (by norm_num) (by norm_num)).2.2 (fun _ _ _ _ _ => rfl)⟩

/-! ## Lemmas about the motion-detect state machine -/

theorem transform_ip_enabled (w h : Nat) (fl : StbtMotionDetect)
    (buf : Nat → Nat → Nat × Nat × Nat) :
    (gst_motiondetect_transform_ip w h fl buf).filter.enabled = fl.enabled := by
  obtain ⟨en, st, rs, g0, g1, mask, nt⟩ := fl
  cases en <;> cases st <;> cases rs <;>
    simp [gst_motiondetect_transform_ip, StbtMotionDetect.writeCur,
      StbtMotionDetect.writeRef]

theorem transform_ip_state (w h : Nat) (fl : StbtMotionDetect)
    (buf : Nat → Nat → Nat × Nat × Nat) (hEn : fl.enabled = true)
    (hSt : fl.state ≠ .MOTION_DETECT_STATE_INITIALISING) :
    (gst_motiondetect_transform_ip w h fl buf).filter.state =
      .MOTION_DETECT_STATE_REFERENCE_IMAGE_ACQUIRED := by
  obtain ⟨en, st, rs, g0, g1, mask, nt⟩ := fl
  subst hEn
  cases st with
  | MOTION_DETECT_STATE_INITIALISING => exact absurd rfl hSt
  | MOTION_DETECT_STATE_ACQUIRING_REFERENCE_IMAGE =>
    cases rs <;>
      simp [gst_motiondetect_transform_ip, StbtMotionDetect.writeCur,
        StbtMotionDetect.writeRef]
  | MOTION_DETECT_STATE_REFERENCE_IMAGE_ACQUIRED =>
    cases rs <;>
      simp [gst_motiondetect_transform_ip, StbtMotionDetect.writeCur,
        StbtMotionDetect.writeRef]

theorem transform_ip_message_acquired (w h : Nat) (fl : StbtMotionDetect)
    (buf : Nat → Nat → Nat × Nat × Nat) (hEn : fl.enabled = true)
    (hSt : fl.state = .MOTION_DETECT_STATE_REFERENCE_IMAGE_ACQUIRED) :
    (gst_motiondetect_transform_ip w h fl buf).message.isSome = true := by
  obtain ⟨en, st, rs, g0, g1, mask, nt⟩ := fl
  subst hEn
  subst hSt
  cases rs <;>
    simp [gst_motiondetect_transform_ip, StbtMotionDetect.writeCur,
      StbtMotionDetect.writeRef]

theorem process_length (w h : Nat) :
    ∀ (bufs : List (Nat → Nat → Nat × Nat × Nat)) (fl : StbtMotionDetect),
      (gst_motiondetect_process w h fl bufs).2.length = bufs.length := by
  intro bufs
  induction bufs with
  | nil => intro fl; rfl
  | cons b bs ih =>
    intro fl
    simp [gst_motiondetect_process, ih]

theorem process_all_some (w h : Nat) :
    ∀ (bufs : List (Nat → Nat → Nat × Nat × Nat)) (fl : StbtMotionDetect),
      fl.enabled = true →
      fl.state = .MOTION_DETECT_STATE_REFERENCE_IMAGE_ACQUIRED →
      ∀ m ∈ (gst_motiondetect_process w h fl bufs).2, m.isSome = true := by
  intro bufs
  induction bufs with
  | nil => intro fl _ _ m hm; simp [gst_motiondetect_process] at hm
  | cons b bs ih =>
    intro fl hEn hSt m hm
    simp only [gst_motiondetect_process, List.mem_cons] at hm
    rcases hm with rfl | hmem
    · exact transform_ip_message_acquired w h fl b hEn hSt
    · exact ih (gst_motiondetect_transform_ip w h fl b).filter
        (by rw [transform_ip_enabled]; exact hEn)
        (transform_ip_state w h fl b hEn (by rw [hSt]; intro hc; cases hc))
        m hmem

/-! ## Claim C6 -/

/-- C6: the first frame processed after enabling stores its grayscale as
the reference and posts no verdict message; a frame processed in the
reference-acquired state posts exactly one verdict message; every
processed frame swaps the reference and current buffers by flipping the
arena flag (no pixel copy) and leaves the state reference-acquired; and
over a delivered sequence there is one message slot per frame, the first
empty, all later ones carrying a verdict. -/
theorem claim_C6_motiondetect_state_machine (w h : Nat)
    (fl : StbtMotionDetect) (buf : Nat → Nat → Nat × Nat × Nat)
    (frames : List (Nat → Nat → Nat × Nat × Nat))
    (hEn : fl.enabled = true) :
    ((gst_motiondetect_transform_ip w h
        (gst_motiondetect_set_enabled fl true) buf).message = none ∧
     (gst_motiondetect_transform_ip w h
        (gst_motiondetect_set_enabled fl true) buf).filter.cvReferenceImageGray =
       cvCvtColor_BGR2GRAY buf ∧
     (gst_motiondetect_transform_ip w h
        (gst_motiondetect_set_enabled fl true) buf).filter.state =
       .MOTION_DETECT_STATE_REFERENCE_IMAGE_ACQUIRED) ∧
    (fl.state = .MOTION_DETECT_STATE_REFERENCE_IMAGE_ACQUIRED →
      (gst_motiondetect_transform_ip w h fl buf).message.isSome = true) ∧
    (fl.state ≠ .MOTION_DETECT_STATE_INITIALISING →
      (gst_motiondetect_transform_ip w h fl buf).filter.refSlot = !fl.refSlot ∧
      (gst_motiondetect_transform_ip w h fl buf).filter.state =
        .MOTION_DETECT_STATE_REFERENCE_IMAGE_ACQUIRED) ∧
    ((gst_motiondetect_process w h (gst_motiondetect_set_enabled fl true)
        (buf :: frames)).2.length = frames.length + 1 ∧
     (gst_motiondetect_process w h (gst_motiondetect_set_enabled fl true)
        (buf :: frames)).2.head? = some none ∧
     ∀ m ∈ (gst_motiondetect_process w h (gst_motiondetect_set_enabled fl true)
        (buf :: frames)).2.tail, m.isSome = true) := by
  have hfirst : (gst_motiondetect_transform_ip w h
      (gst_motiondetect_set_enabled fl true) buf).message = none ∧
      (gst_motiondetect_transform_ip w h
        (gst_motiondetect_set_enabled fl true) buf).filter.cvReferenceImageGray =
        cvCvtColor_BGR2GRAY buf ∧
      (gst_motiondetect_transform_ip w h
        (gst_motiondetect_set_enabled fl true) buf).filter.state =
        .MOTION_DETECT_STATE_REFERENCE_IMAGE_ACQUIRED := by
    obtain ⟨en, st, rs, g0, g1, mask, nt⟩ := fl
    cases rs <;>
      simp [gst_motiondetect_set_enabled, gst_motiondetect_transform_ip,
        StbtMotionDetect.writeCur, StbtMotionDetect.writeRef,
        StbtMotionDetect.cvReferenceImageGray,
        StbtMotionDetect.cvCurrentImageGray]
  refine ⟨hfirst, transform_ip_message_acquired w h fl buf hEn, ?_, ?_⟩
  · intro hSt
    refine ⟨?_, transform_ip_state w h fl buf hEn hSt⟩
    obtain ⟨en, st, rs, g0, g1, mask, nt⟩ := fl
    subst hEn
    cases st with
    | MOTION_DETECT_STATE_INITIALISING => exact absurd rfl hSt
    | MOTION_DETECT_STATE_ACQUIRING_REFERENCE_IMAGE =>
      cases rs <;>
        simp [gst_motiondetect_transform_ip, StbtMotionDetect.writeCur,
          StbtMotionDetect.writeRef]
    | MOTION_DETECT_STATE_REFERENCE_IMAGE_ACQUIRED =>
      cases rs <;>
        simp [gst_motiondetect_transform_ip, StbtMotionDetect.writeCur,
          StbtMotionDetect.writeRef]
  · have henab : (gst_motiondetect_set_enabled fl true).enabled = true := rfl
    have hacq : (gst_motiondetect_set_enabled fl true).state =
        .MOTION_DETECT_STATE_ACQUIRING_REFERENCE_IMAGE := rfl
    refine ⟨?_, ?_, ?_⟩
    · rw [process_length]
      rfl
    · simp only [gst_motiondetect_process, List.head?_cons]
      rw [hfirst.1]
    · intro m hm
      simp only [gst_motiondetect_process, List.tail_cons] at hm
      exact process_all_some w h frames
        (gst_motiondetect_transform_ip w h
          (gst_motiondetect_set_enabled fl true) buf).filter
        (by rw [transform_ip_enabled]; exact henab)
        (transform_ip_state w h _ buf henab (by rw [hacq]; intro hc; cases hc))
        m hm

/-- Witness for C6: a concrete 1x1 detector, freshly enabled, processes
one frame with no message and flips into the acquired state. -/
theorem claim_C6_witness :
    (gst_motiondetect_transform_ip 1 1
      (gst_motiondetect_set_enabled
        ⟨true, .MOTION_DETECT_STATE_ACQUIRING_REFERENCE_IMAGE, false,
         (fun _ _ => 0), (fun _ _ => 0), none, 1⟩ true)
      (fun _ _ => (0, 0, 0))).message = none :=
  (claim_C6_motiondetect_state_machine 1 1
    ⟨true, .MOTION_DETECT_STATE_ACQUIRING_REFERENCE_IMAGE, false,
     (fun _ _ => 0), (fun _ _ => 0), none, 1⟩
    (fun _ _ => (0, 0, 0)) [] rfl).1.1

/-! ## Claim C10 -/

/-- C10: gst_motiondetect_apply leaves the eroded binary difference map
in the buffer passed as the reference image (the absdiff, threshold and
erode steps all write into it), so after a verdict that buffer no longer
holds the reference frame; the caller then swaps, making it the current
buffer (whose content is about to be discarded) while the fresh
grayscale of the incoming frame becomes the reference. -/
theorem claim_C10_apply_overwrites_reference (w h : Nat)
    (fl : StbtMotionDetect) (buf : Nat → Nat → Nat × Nat × Nat)
    (reference current : Nat → Nat → Nat) (mask : Option (Nat → Nat → Nat))
    (nt : ℚ) (hEn : fl.enabled = true)
    (hSt : fl.state = .MOTION_DETECT_STATE_REFERENCE_IMAGE_ACQUIRED) :
    (gst_motiondetect_apply w h reference current mask nt).referenceImageAfter =
      cvErodeN w h 1 (cvThreshold_BINARY (cvAbsDiff reference current)
        (c_trunc ((1 - nt) * 255)) 255) ∧
    (gst_motiondetect_transform_ip w h fl buf).filter.cvCurrentImageGray =
      (gst_motiondetect_apply w h fl.cvReferenceImageGray
        (cvCvtColor_BGR2GRAY buf) fl.cvMaskImage
        fl.noiseThreshold).referenceImageAfter ∧
    (gst_motiondetect_transform_ip w h fl buf).filter.cvReferenceImageGray =
      cvCvtColor_BGR2GRAY buf ∧
    (gst_motiondetect_transform_ip w h fl buf).message =
      some (gst_motiondetect_apply w h fl.cvReferenceImageGray
        (cvCvtColor_BGR2GRAY buf) fl.cvMaskImage fl.noiseThreshold).hasMotion := by
  refine ⟨rfl, ?_⟩
  obtain ⟨en, st, rs, g0, g1, mask2, nt2⟩ := fl
  subst hEn
  subst hSt
  cases rs <;>
    simp [gst_motiondetect_transform_ip, StbtMotionDetect.writeCur,
      StbtMotionDetect.writeRef, StbtMotionDetect.cvReferenceImageGray,
      StbtMotionDetect.cvCurrentImageGray]

/-- Witness for C10: on a concrete 1x1 detector in the acquired state,
after the verdict the reference buffer holds the fresh grayscale. -/
theorem claim_C10_witness :
    (gst_motiondetect_transform_ip 1 1
      ⟨true, .MOTION_DETECT_STATE_REFERENCE_IMAGE_ACQUIRED, false,
       (fun _ _ => 0), (fun _ _ => 0), none, 1⟩
      (fun _ _ => (0, 0, 0))).filter.cvReferenceImageGray =
      cvCvtColor_BGR2GRAY (fun _ _ => (0, 0, 0)) :=
  (claim_C10_apply_overwrites_reference 1 1
    ⟨true, .MOTION_DETECT_STATE_REFERENCE_IMAGE_ACQUIRED, false,
     (fun _ _ => 0), (fun _ _ => 0), none, 1⟩
    (fun _ _ => (0, 0, 0)) (fun _ _ => 0) (fun _ _ => 0) none 1
    rfl rfl).2.2.1

/-! ## Claim C7 -/

theorem cvCountNonZero_eq_zero_iff (w h : Nat) (img : Nat → Nat → Nat) :
    cvCountNonZero w h img = 0 ↔ ∀ y x, y < h → x < w → img y x = 0 := by
  unfold cvCountNonZero
  rw [List.sum_eq_zero_iff]
  constructor
  · intro hz y x hy hx
    have hlen : ((List.range w).filter (fun x => img y x != 0)).length = 0 :=
      hz _ (List.mem_map.mpr ⟨y, List.mem_range.mpr hy, rfl⟩)
    rw [List.length_eq_zero, List.filter_eq_nil_iff] at hlen
    have := hlen x (List.mem_range.mpr hx)
    simpa using this
  · intro hall l hl
    obtain ⟨y, hy, rfl⟩ := List.mem_map.mp hl
    rw [List.length_eq_zero, List.filter_eq_nil_iff]
    intro x hx
    simp [hall y x (List.mem_range.mp hy) (List.mem_range.mp hx)]

/-- Follows the claim wording of C7 for comparison with the code: the
absdiff confirmation binarizing at round(confirmThreshold * 255) with a
pixel set iff its absolute difference is at least that threshold. -/
def confirm_absdiff_spec_round (wT hT : Nat)
    (input : Nat → Nat → Nat × Nat × Nat) (templateGray : Nat → Nat → Nat)
    (confirmThreshold : ℚ) (bestPos : Nat × Nat) (erodePasses : Nat) : Bool :=
  cvCountNonZero wT hT
    (cvErodeN wT hT erodePasses
      (fun y x =>
        if (round (confirmThreshold * 255) : Int) ≤
            (cvAbsDiff
              (cvCvtColor_BGR2GRAY (cvSetImageROI input bestPos.1 bestPos.2))
              templateGray y x : Int)
        then 255 else 0)) == 0

/-- Counterexample to C7 as stated: at confirmThreshold 9/16 both the
truncation and the rounding of 9/16 * 255 = 143.4375 give 143, but on an
absolute difference of exactly 143 the code (strictly greater than 143)
leaves the pixel clear and confirms, while the claimed rule (at least
round = 143) sets it and rejects. -/
theorem claim_C7_counterexample :
    gst_templatematch_confirm_absdiff 1 1 (fun _ _ => (0, 0, 0))
      (fun _ _ => 143) (9 / 16) (0, 0) 1 = true ∧
    confirm_absdiff_spec_round 1 1 (fun _ _ => (0, 0, 0))
      (fun _ _ => 143) (9 / 16) (0, 0) 1 = false := by
  have ht : c_trunc ((9 / 16 : ℚ) * 255) = 143 := by
    rw [c_trunc_eq_floor _ (by norm_num)]
    norm_num
  have hr : round ((9 / 16 : ℚ) * 255) = 143 := by
    rw [round_eq]
    norm_num
  constructor
  · unfold gst_templatematch_confirm_absdiff
    rw [ht]
    decide
  · unfold confirm_absdiff_spec_round
    rw [hr]
    decide

/-- C7 amended: the absdiff confirmation binarizes the grayscale
absolute-difference image at the truncated threshold
(int)(confirmThreshold * 255) (the floor, for a nonnegative threshold
parameter), setting a pixel iff its absolute difference is strictly
greater than that threshold, and confirms iff no pixel of the eroded
binary map is nonzero. -/
theorem claim_C7_confirm_absdiff_threshold (wT hT : Nat)
    (input : Nat → Nat → Nat × Nat × Nat) (templateGray : Nat → Nat → Nat)
    (nt : ℚ) (bestPos : Nat × Nat) (erodePasses : Nat) (h0 : 0 ≤ nt) :
    c_trunc (nt * 255) = ⌊nt * 255⌋ ∧
    (∀ y x,
      cvThreshold_BINARY
        (cvAbsDiff (cvCvtColor_BGR2GRAY (cvSetImageROI input bestPos.1 bestPos.2))
          templateGray) (c_trunc (nt * 255)) 255 y x =
        if (⌊nt * 255⌋ : Int) <
            (cvAbsDiff
              (cvCvtColor_BGR2GRAY (cvSetImageROI input bestPos.1 bestPos.2))
              templateGray y x : Int)
        then 255 else 0) ∧
    (gst_templatematch_confirm_absdiff wT hT input templateGray nt bestPos
        erodePasses = true ↔
      ∀ y x, y < hT → x < wT →
        cvErodeN wT hT erodePasses
          (cvThreshold_BINARY
            (cvAbsDiff
              (cvCvtColor_BGR2GRAY (cvSetImageROI input bestPos.1 bestPos.2))
              templateGray) (c_trunc (nt * 255)) 255) y x = 0) := by
  have hq : (0 : ℚ) ≤ nt * 255 := mul_nonneg h0 (by norm_num)
  refine ⟨c_trunc_eq_floor _ hq, ?_, ?_⟩
  · intro y x
    simp only [cvThreshold_BINARY]
    rw [c_trunc_eq_floor _ hq]
  · unfold gst_templatematch_confirm_absdiff
    rw [beq_iff_eq]
    exact cvCountNonZero_eq_zero_iff wT hT _

/-- Witness for C7: at confirmThreshold 9/16 the truncated threshold
agrees with the floor. -/
theorem claim_C7_witness :
    (0 : ℚ) ≤ 9 / 16 ∧
    c_trunc ((9 / 16 : ℚ) * 255) = ⌊(9 / 16 : ℚ) * 255⌋ :=
  ⟨by norm_num,
    (claim_C7_confirm_absdiff_threshold 1 1 (fun _ _ => (0, 0, 0))
      (fun _ _ => 0) (9 / 16) (0, 0) 1 (by norm_num)).1⟩

/-! ## Indexed access to the DiffMap output -/

theorem map_range_getD {α : Type} (g : Nat → α) (len x : Nat) (hx : x < len)
    (d : α) : ((List.range len).map g).getD x d = g x := by
  rw [List.getD_eq_getElem?_getD, List.getElem?_map, List.getElem?_range hx]
  rfl

theorem flatten_getD (w : Nat) :
    ∀ (L : List (List Nat)), (∀ l ∈ L, l.length = w) →
      ∀ (y x : Nat), y < L.length → x < w →
        L.flatten.getD (y * w + x) 0 = (L.getD y []).getD x 0 := by
  intro L
  induction L with
  | nil => intro _ y x hy _; simp at hy
  | cons l L' ih =>
    intro hall y x hy hx
    cases y with
    | zero =>
      have hl : x < l.length := by rw [hall l (by simp)]; exact hx
      simp only [List.flatten_cons, Nat.zero_mul, Nat.zero_add, List.getD_cons_zero]
      rw [List.getD_eq_getElem?_getD, List.getElem?_append, if_pos hl,
        ← List.getD_eq_getElem?_getD]
    | succ y' =>
      have hlen : l.length = w := hall l (by simp)
      have hidx : (y' + 1) * w + x = l.length + (y' * w + x) := by
        rw [hlen]; ring
      simp only [List.flatten_cons, List.getD_cons_succ]
      rw [hidx, List.getD_eq_getElem?_getD, List.getElem?_append_right (by omega),
        ← List.getD_eq_getElem?_getD]
      have : l.length + (y' * w + x) - l.length = y' * w + x := by omega
      rw [this]
      exact ih (fun m hm => hall m (by simp [hm])) y' x (by simpa using hy) hx

theorem threshold_diff_bgr_length (a : Nat → Nat) (sa : Nat) (b : Nat → Nat)
    (sb tq w h : Nat) :
    (threshold_diff_bgr a sa b sb tq w h).length = h * w := by
  unfold threshold_diff_bgr
  rw [List.length_flatten, List.map_map]
  have hconst : (List.length ∘ fun y =>
      threshold_diff_BGR_line (fun i => a (y * sa + i)) (fun i => b (y * sb + i))
        w tq) = fun _ => w := by
    funext y
    simp [threshold_diff_BGR_line]
  rw [hconst, range_map_sum]
  simp [Finset.sum_const, Finset.card_range, smul_eq_mul]

theorem threshold_diff_bgr_pixel (a : Nat → Nat) (sa : Nat) (b : Nat → Nat)
    (sb tq w h y x : Nat) (hy : y < h) (hx : x < w) :
    (threshold_diff_bgr a sa b sb tq w h).getD (y * w + x) 0 =
      if tq ≤ threshold_diff_px_sq (fun i => a (y * sa + i))
          (fun i => b (y * sb + i)) x then 1 else 0 := by
  unfold threshold_diff_bgr
  rw [flatten_getD w _ (by
      intro l hl
      obtain ⟨y', _, rfl⟩ := List.mem_map.mp hl
      unfold threshold_diff_BGR_line
      simp) y x (by simpa using hy) hx]
  rw [map_range_getD _ h y hy]
  unfold threshold_diff_BGR_line
  rw [map_range_getD _ w x hx]

/-! ## Claims C1, C2, C3 -/

/-- C1: for every pair of buffers with equal positive width and height
and strides at least the tight row width, sqdiff with the U8 layout
returns compared count = width*height and total = the exact sum over all
pixels of the squared byte difference; with the BGR layout it returns
count = width*height*3, totalling over all three channels. -/
theorem claim_C1_sqdiff_U8_BGR (t : Nat → Nat) (ts : Nat) (f : Nat → Nat)
    (fs w h : Nat) (ht : IsByteBuf t) (hf : IsByteBuf f)
    (hw : 0 < w) (hh : 0 < h)
    (hw16 : w < 65536) (hh16 : h < 65536) (hts : ts < 65536) (hfs : fs < 65536) :
    (w ≤ ts → w ≤ fs →
      sqdiff t ts f fs w h .PIXEL_DEPTH_U8 =
        ⟨∑ y in Finset.range h, ∑ x in Finset.range w,
            sqByteDiff (t (y * ts + x)) (f (y * fs + x)), w * h⟩) ∧
    (w * 3 ≤ ts → w * 3 ≤ fs →
      sqdiff t ts f fs w h .PIXEL_DEPTH_BGR =
        ⟨∑ y in Finset.range h, ∑ x in Finset.range (w * 3),
            sqByteDiff (t (y * ts + x)) (f (y * fs + x)), w * h * 3⟩) := by
  constructor
  · intro _ _
    have base := sqdiff_exact_U8 t ts f fs w h ht hf hw16 hh16
    simpa [sqdiffSpecTotal, sqdiffSpecRow] using base
  · intro h1 _
    have base := sqdiff_exact_BGR t ts f fs w h ht hf hh16 hts h1
    simpa [sqdiffSpecTotal, sqdiffSpecRow] using base

/-- Witness for C1: the 2x2 Gray8 scenario [0,0,0,0] vs [10,0,0,0]
returns total = 100 and count = 4. -/
theorem claim_C1_witness :
    sqdiff (bufOf [0, 0, 0, 0]) 2 (bufOf [10, 0, 0, 0]) 2 2 2 .PIXEL_DEPTH_U8 =
      ⟨100, 4⟩ := by
  have base := (claim_C1_sqdiff_U8_BGR (bufOf [0, 0, 0, 0]) 2 (bufOf [10, 0, 0, 0]) 2 2 2
    (bufOf_isByteBuf _ (by decide)) (bufOf_isByteBuf _ (by decide))
    (by decide) (by decide) (by decide) (by decide) (by decide) (by decide)).1
    (by decide) (by decide)
  rw [base]
  decide

/-- C2: for the BGRA (MaskedPadded32) template layout a pixel
participates iff its fourth byte equals 255 exactly; sqdiff returns
count = 3 times the number of participating pixels and a total to which
only participating pixels contribute their three channel squared
differences. -/
theorem claim_C2_sqdiff_BGRA (t : Nat → Nat) (ts : Nat) (f : Nat → Nat)
    (fs w h : Nat) (ht : IsByteBuf t) (hf : IsByteBuf f)
    (hw : 0 < w) (hh : 0 < h)
    (hw16 : w < 65536) (hh16 : h < 65536) (hts : ts < 65536) (hfs : fs < 65536)
    (ht4 : w * 4 ≤ ts) (hf3 : w * 3 ≤ fs) :
    sqdiff t ts f fs w h .PIXEL_DEPTH_BGRA =
      ⟨∑ y in Finset.range h, ∑ x in Finset.range w,
          (if t (y * ts + (4 * x + 3)) = 255 then
            bgrSqDiff (fun i => t (y * ts + i)) (fun i => f (y * fs + i)) 4 x
          else 0),
       3 * ∑ y in Finset.range h, ∑ x in Finset.range w,
          (if t (y * ts + (4 * x + 3)) = 255 then 1 else 0)⟩ := by
  rw [sqdiff_exact_BGRA t ts f fs w h ht hf hh16 hts ht4]
  simp only [SqdiffResult.mk.injEq]
  constructor
  · unfold sqdiffSpecTotal
    refine Finset.sum_congr rfl fun y _ => ?_
    simp only [sqdiffSpecRow]
    refine Finset.sum_congr rfl fun x _ => ?_
    unfold sqdiff_BGRA_present
    split <;> simp
  · simp only [sqdiffSpecCount]
    rw [Nat.mul_comm]
    rfl

/-- Witness for C2: the 2x1 MaskedPadded32 scenario, template row
[255,255,255,255, 0,0,0,0] against frame [0,0,0, 0,0,0], returns
total = 195075 and count = 3. -/
theorem claim_C2_witness :
    sqdiff (bufOf [255, 255, 255, 255, 0, 0, 0, 0]) 8 (bufOf [0, 0, 0, 0, 0, 0]) 6
        2 1 .PIXEL_DEPTH_BGRA = ⟨195075, 3⟩ := by
  have base := claim_C2_sqdiff_BGRA (bufOf [255, 255, 255, 255, 0, 0, 0, 0]) 8
    (bufOf [0, 0, 0, 0, 0, 0]) 6 2 1
    (bufOf_isByteBuf _ (by decide)) (bufOf_isByteBuf _ (by decide))
    (by decide) (by decide) (by decide) (by decide) (by decide) (by decide)
    (by decide) (by decide)
  rw [base]
  decide

/-- C3: for every supported layout and every width and height
representable in 16 bits, with strides satisfying the asserted
preconditions, the total returned by sqdiff equals the exact
mathematical sum of the squared channel differences; moreover each
32-bit per-row accumulator holds its row sum without wraparound and the
64-bit total holds the full sum without wraparound. -/
theorem claim_C3_sqdiff_no_overflow (t : Nat → Nat) (ts : Nat) (f : Nat → Nat)
    (fs w h : Nat) (depth : PixelDepth)
    (ht : IsByteBuf t) (hf : IsByteBuf f) (hw : 0 < w) (hh : 0 < h)
    (hw16 : w < 65536) (hh16 : h < 65536) (hts : ts < 65536) (hfs : fs < 65536)
    (hassert : sqdiffAsserts ts fs w depth) :
    (sqdiff t ts f fs w h depth).total = sqdiffSpecTotal t ts f fs w h depth ∧
    (∀ y, y < h → sqdiffSpecRow t ts f fs w y depth < UINT32_MOD) ∧
    sqdiffSpecTotal t ts f fs w h depth < UINT64_MOD := by
  cases depth with
  | PIXEL_DEPTH_U8 =>
    have row_lt : ∀ y, y < h →
        sqdiffSpecRow t ts f fs w y .PIXEL_DEPTH_U8 < UINT32_MOD := fun y _ =>
      sqdiff_U8_row_lt (fun i => t (y * ts + i)) (fun i => f (y * fs + i)) w
        (fun i => ht _) (fun i => hf _) hw16
    refine ⟨by rw [sqdiff_exact_U8 t ts f fs w h ht hf hw16 hh16], row_lt, ?_⟩
    have row_le : ∀ y, y < h →
        sqdiffSpecRow t ts f fs w y .PIXEL_DEPTH_U8 ≤ w * 65025 := fun y _ =>
      sum_range_le _ 65025 w (fun x _ => sqByteDiff_le _ _ (ht _) (hf _))
    refine lt_of_le_of_lt (sum_range_le _ (w * 65025) h row_le) ?_
    calc h * (w * 65025) ≤ 65535 * (65535 * 65025) :=
          Nat.mul_le_mul (by omega) (Nat.mul_le_mul (by omega) (le_refl 65025))
      _ < UINT64_MOD := by norm_num [UINT64_MOD]
  | PIXEL_DEPTH_BGR =>
    have hw3 : w * 3 < 65536 := by
      have := hassert.1
      simp only [sqdiffAsserts] at this ⊢
      omega
    have row_lt : ∀ y, y < h →
        sqdiffSpecRow t ts f fs w y .PIXEL_DEPTH_BGR < UINT32_MOD := fun y _ =>
      sqdiff_U8_row_lt (fun i => t (y * ts + i)) (fun i => f (y * fs + i)) (w * 3)
        (fun i => ht _) (fun i => hf _) hw3
    refine ⟨by rw [sqdiff_exact_BGR t ts f fs w h ht hf hh16 hts hassert.1],
      row_lt, ?_⟩
    have row_le : ∀ y, y < h →
        sqdiffSpecRow t ts f fs w y .PIXEL_DEPTH_BGR ≤ w * 3 * 65025 := fun y _ =>
      sum_range_le _ 65025 (w * 3) (fun x _ => sqByteDiff_le _ _ (ht _) (hf _))
    refine lt_of_le_of_lt (sum_range_le _ (w * 3 * 65025) h row_le) ?_
    calc h * (w * 3 * 65025) ≤ 65535 * (65535 * 65025) :=
          Nat.mul_le_mul (by omega) (Nat.mul_le_mul (by omega) (le_refl 65025))
      _ < UINT64_MOD := by norm_num [UINT64_MOD]
  | PIXEL_DEPTH_BGRx =>
    have hwle : w ≤ 16383 := by
      have := hassert.1
      simp only [sqdiffAsserts] at this
      omega
    have row_lt : ∀ y, y < h →
        sqdiffSpecRow t ts f fs w y .PIXEL_DEPTH_BGRx < UINT32_MOD := fun y _ =>
      sqdiff_BGRx_row_lt (fun i => t (y * ts + i)) (fun i => f (y * fs + i)) w
        (fun i => ht _) (fun i => hf _) hwle
    refine ⟨by rw [sqdiff_exact_BGRx t ts f fs w h ht hf hh16 hts hassert.1],
      row_lt, ?_⟩
    have row_le : ∀ y, y < h →
        sqdiffSpecRow t ts f fs w y .PIXEL_DEPTH_BGRx ≤ w * 195075 := fun y _ =>
      sum_range_le _ 195075 w
        (fun x _ => bgrSqDiff_le _ _ 4 x (fun i => ht _) (fun i => hf _))
    refine lt_of_le_of_lt (sum_range_le _ (w * 195075) h row_le) ?_
    calc h * (w * 195075) ≤ 65535 * (16383 * 195075) :=
          Nat.mul_le_mul (by omega) (Nat.mul_le_mul hwle (le_refl 195075))
      _ < UINT64_MOD := by norm_num [UINT64_MOD]
  | PIXEL_DEPTH_BGRA =>
    have hwle : w ≤ 16383 := by
      have := hassert.1
      simp only [sqdiffAsserts] at this
      omega
    have row_le : ∀ y, y < h →
        sqdiffSpecRow t ts f fs w y .PIXEL_DEPTH_BGRA ≤ w * 195075 := by
      intro y _
      refine sum_range_le _ 195075 w (fun x _ => ?_)
      calc bgrSqDiff (fun i => t (y * ts + i)) (fun i => f (y * fs + i)) 4 x *
            sqdiff_BGRA_present (fun i => t (y * ts + i)) x ≤ 195075 * 1 :=
            Nat.mul_le_mul (bgrSqDiff_le _ _ 4 x (fun i => ht _) (fun i => hf _))
              (sqdiff_BGRA_present_le _ x)
        _ = 195075 := by norm_num
    have row_lt : ∀ y, y < h →
        sqdiffSpecRow t ts f fs w y .PIXEL_DEPTH_BGRA < UINT32_MOD := by
      intro y hy
      refine lt_of_le_of_lt (row_le y hy) ?_
      calc w * 195075 ≤ 16383 * 195075 := Nat.mul_le_mul hwle (le_refl 195075)
        _ < UINT32_MOD := by norm_num [UINT32_MOD]
    refine ⟨?_, row_lt, ?_⟩
    · rw [sqdiff_exact_BGRA t ts f fs w h ht hf hh16 hts hassert.1]
    · refine lt_of_le_of_lt (sum_range_le _ (w * 195075) h row_le) ?_
      calc h * (w * 195075) ≤ 65535 * (16383 * 195075) :=
            Nat.mul_le_mul (by omega) (Nat.mul_le_mul hwle (le_refl 195075))
        _ < UINT64_MOD := by norm_num [UINT64_MOD]

theorem threshold_diff_px_sq_eq (a b : Nat → Nat) (n : Nat)
    (ha : IsByteBuf a) (hb : IsByteBuf b) :
    threshold_diff_px_sq a b n = bgrSqDiff a b 3 n := by
  unfold threshold_diff_px_sq
  exact term_BGRstep_eq a b 3 n ha hb

/-- C4: for packed BGR images of equal positive width and height,
threshold_diff_bgr writes to each output byte 1 iff the sum of the three
squared channel differences of the corresponding pixel is at least
threshold_sq, and 0 otherwise. -/
theorem claim_C4_threshold_diff (a : Nat → Nat) (sa : Nat) (b : Nat → Nat)
    (sb tq w h : Nat) (ha : IsByteBuf a) (hb : IsByteBuf b)
    (hw : 0 < w) (hh : 0 < h) :
    (threshold_diff_bgr a sa b sb tq w h).length = h * w ∧
    ∀ y x, y < h → x < w →
      (threshold_diff_bgr a sa b sb tq w h).getD (y * w + x) 0 =
        if tq ≤ bgrSqDiff (fun i => a (y * sa + i)) (fun i => b (y * sb + i)) 3 x
        then 1 else 0 := by
  refine ⟨threshold_diff_bgr_length a sa b sb tq w h, fun y x hy hx => ?_⟩
  rw [threshold_diff_bgr_pixel a sa b sb tq w h y x hy hx,
    threshold_diff_px_sq_eq _ _ x (fun i => ha _) (fun i => hb _)]

/-- Witness for C4: the 1-pixel scenario [10,10,10] vs [0,0,0] gives
output byte 1 at threshold 250 (sum of squares 300), and the raw outputs
are [1] at threshold 250 and [0] at threshold 400. -/
theorem claim_C4_witness :
    (threshold_diff_bgr (bufOf [10, 10, 10]) 3 (bufOf [0, 0, 0]) 3 250 1 1).getD 0 0
        = 1 ∧
    threshold_diff_bgr (bufOf [10, 10, 10]) 3 (bufOf [0, 0, 0]) 3 250 1 1 = [1] ∧
    threshold_diff_bgr (bufOf [10, 10, 10]) 3 (bufOf [0, 0, 0]) 3 400 1 1 = [0] := by
  refine ⟨?_, by decide, by decide⟩
  have base := (claim_C4_threshold_diff (bufOf [10, 10, 10]) 3 (bufOf [0, 0, 0]) 3
    250 1 1 (bufOf_isByteBuf _ (by decide)) (bufOf_isByteBuf _ (by decide))
    (by decide) (by decide)).2 0 0 (by decide) (by decide)
  rw [show (0 * 1 + 0 : Nat) = 0 by decide] at base
  rw [base]
  decide

/-- C8: threshold_diff_bgr is monotone in threshold_sq: for fixed inputs
and t1 less or equal t2, every output byte that is 1 at threshold t2 is
also 1 at threshold t1. -/
theorem claim_C8_threshold_diff_monotone (a : Nat → Nat) (sa : Nat)
    (b : Nat → Nat) (sb w h t1 t2 : Nat) (hle : t1 ≤ t2) :
    ∀ i, (threshold_diff_bgr a sa b sb t2 w h).getD i 0 = 1 →
      (threshold_diff_bgr a sa b sb t1 w h).getD i 0 = 1 := by
  intro i h2
  by_cases hi : i < h * w
  · have hw : 0 < w := by
      rcases Nat.eq_zero_or_pos w with h0 | h0
      · subst h0; simp at hi
      · exact h0
    have hx : i % w < w := Nat.mod_lt _ hw
    have hy : i / w < h := by
      rw [Nat.div_lt_iff_lt_mul hw]
      exact lt_of_lt_of_le hi (by rw [Nat.mul_comm])
    have key : (i / w) * w + i % w = i := by
      rw [Nat.mul_comm]
      exact Nat.div_add_mod i w
    rw [← key] at h2 ⊢
    rw [threshold_diff_bgr_pixel a sa b sb t2 w h _ _ hy hx] at h2
    rw [threshold_diff_bgr_pixel a sa b sb t1 w h _ _ hy hx]
    by_cases hc : t2 ≤ threshold_diff_px_sq (fun j => a (i / w * sa + j))
        (fun j => b (i / w * sb + j)) (i % w)
    · rw [if_pos (le_trans hle hc)]
    · rw [if_neg hc] at h2
      omega
  · exfalso
    have hlen : (threshold_diff_bgr a sa b sb t2 w h).length ≤ i := by
      rw [threshold_diff_bgr_length]
      omega
    rw [List.getD_eq_default _ _ hlen] at h2
    omega

/-- Witness for C8: at thresholds 250 and 300 the pixel [10,10,10] vs
[0,0,0] (squared difference 300) is 1 at 300, hence 1 at 250. -/
theorem claim_C8_witness :
    (threshold_diff_bgr (bufOf [10, 10, 10]) 3 (bufOf [0, 0, 0]) 3 250 1 1).getD 0 0
      = 1 :=
  claim_C8_threshold_diff_monotone (bufOf [10, 10, 10]) 3 (bufOf [0, 0, 0]) 3 1 1
    250 300 (by decide) 0 (by decide)

/-- Witness for C3: the U8 scenario evaluates exactly, its row sums stay
below 2^32 and its total below 2^64. -/
theorem claim_C3_witness :
    (sqdiff (bufOf [0, 0, 0, 0]) 2 (bufOf [10, 0, 0, 0]) 2 2 2 .PIXEL_DEPTH_U8).total =
      sqdiffSpecTotal (bufOf [0, 0, 0, 0]) 2 (bufOf [10, 0, 0, 0]) 2 2 2
        .PIXEL_DEPTH_U8 :=
  (claim_C3_sqdiff_no_overflow (bufOf [0, 0, 0, 0]) 2 (bufOf [10, 0, 0, 0]) 2 2 2
    .PIXEL_DEPTH_U8
    (bufOf_isByteBuf _ (by decide)) (bufOf_isByteBuf _ (by decide))
    (by decide) (by decide) (by decide) (by decide) (by decide) (by decide)
    (by simp only [sqdiffAsserts]; exact ⟨le_refl 2, le_refl 2⟩)).1

end Stbt
